import Mathlib

/-!
Verification of the clustering engine of the Leo-GG/Clustering repository.

The C++ source is shallowly embedded: `float` values are modelled as exact
rationals (the claims under scrutiny are order/structure properties, not
rounding properties), `std::vector` as `List`, the mutable `Node::clusterId_`
back references as a `List Nat` indexed by node id, and the master
`clusterList` as a `List Cluster` (the source maintains cluster id = list
position throughout).  The `priority_queue<Link,...,LinkComparator>` yields
links in ascending distance order, so the queue is embedded as a `List Link`
together with a sortedness hypothesis where a theorem needs it.
-/

namespace Clustering

/-- Modify the element at position `i` of a list in place
(`v[i] = f(v[i])`; out of range is a no-op, matching the fact that the
source only indexes in bounds). -/
def listModify (f : α → α) : Nat → List α → List α
  | _, [] => []
  | 0, a :: as => f a :: as
  | n + 1, a :: as => a :: listModify f n as

/-- Matrix entry read `m[i][j]` for a `vector<vector<float>>`. -/
def mget (m : List (List ℚ)) (i j : Nat) : ℚ := (m.getD i []).getD j 0

/-- Build the list `[f 0, f 1, ..., f (n-1)]`, the result of a
`for (i=0;i<n;i++) v.push_back(f(i));` loop. -/
def tab (f : Nat → α) (n : Nat) : List α := (List.range n).map f

/-! ## Distance normalizer (`initScores`, clustering.cpp lines 47-80) -/

/-- One entry of the normalized score matrix, translated from the body of
the double loop in `initScores`: both raw scores zero gives 0, exactly one
zero gives the arithmetic mean, otherwise the harmonic mean; the diagonal
is forced to 0 afterwards. `raw` is the flat row-major raw score array. -/
def initScoresEntry (totalNodes : Nat) (raw : Nat → ℚ) (i j : Nat) : ℚ :=
  if i = j then 0
  else if raw (i * totalNodes + j) = 0 ∧ raw (j * totalNodes + i) = 0 then 0
  else if raw (i * totalNodes + j) = 0 ∨ raw (j * totalNodes + i) = 0 then
    (raw (i * totalNodes + j) + raw (j * totalNodes + i)) / 2
  else 2 * (raw (i * totalNodes + j) * raw (j * totalNodes + i)) /
    (raw (i * totalNodes + j) + raw (j * totalNodes + i))

/-- `initScores` (clustering.cpp lines 47-80): builds the `N x N`
normalized matrix row by row. -/
def initScores (totalNodes : Nat) (raw : Nat → ℚ) : List (List ℚ) :=
  tab (fun i => tab (fun j => initScoresEntry totalNodes raw i j) totalNodes) totalNodes

theorem getD_tab (f : Nat → α) {n i : Nat} (h : i < n) (d : α) :
    (tab f n).getD i d = f i := by
  unfold tab
  rw [List.getD_eq_getElem?_getD, List.getElem?_map, List.getElem?_range h]
  rfl

/-- Entry access for the built matrix. -/
theorem initScores_entry (totalNodes : Nat) (raw : Nat → ℚ) {i j : Nat}
    (hi : i < totalNodes) (hj : j < totalNodes) :
    mget (initScores totalNodes raw) i j = initScoresEntry totalNodes raw i j := by
  unfold mget initScores
  rw [getD_tab _ hi, getD_tab _ hj]

/-! ## Data model: Node, Cluster, Link, clustering state -/

/-- The `Cluster` class (cluster.h): id, member node ids, `maxDistance_`
and the `active_` flag.  The `centroid_`/`radius_` analytics fields are
not touched by any operation under scrutiny and are omitted. -/
structure Cluster where
  id : Nat
  members : List Nat
  maxDistance : ℚ
  active : Bool
deriving Repr, DecidableEq

/-- Default used for out-of-range cluster list reads (the source never
reads out of range in the runs considered). -/
def noCluster : Cluster := ⟨0, [], 0, false⟩

/-- The mutable program state shared by the clustering routines:
`nodeCluster` holds each node's `clusterId_` field (indexed by node id,
mirroring `nodeList` whose position i holds the node with id i), and
`clusters` is the master `clusterList`. -/
structure ClState where
  nodeCluster : List Nat
  clusters : List Cluster
deriving Repr, DecidableEq

/-- `node->getCluster()` for the node with id `n`. -/
def clusterOf (st : ClState) (n : Nat) : Nat := st.nodeCluster.getD n 0

/-- Member list of the cluster at position `k` of `clusterList`. -/
def membersOf (st : ClState) (k : Nat) : List Nat :=
  (st.clusters.getD k noCluster).members

/-- Whether the cluster at position `k` is active. -/
def activeAt (st : ClState) (k : Nat) : Bool :=
  (st.clusters.getD k noCluster).active

/-- `initNodesAndClusters` (clustering.cpp lines 25-45): node i starts in
its own singleton cluster with id i, `maxDistance` 0, active. -/
def initState (totalNodes : Nat) : ClState :=
  { nodeCluster := tab (fun i => i) totalNodes
    clusters := tab (fun i => ⟨i, [i], 0, true⟩) totalNodes }

/-- The reassignment loop of `mergeClusters`: `node->setCluster(cid)` for
every node id in `ms`. -/
def setNodeClusters (nc : List Nat) (ms : List Nat) (cid : Nat) : List Nat :=
  ms.foldl (fun acc m => acc.set m cid) nc

/-- `Cluster::setStatus()` flips the `active_` flag (it toggles rather
than assigning, exactly as in cluster.h line 112). -/
def toggleActive (cs : List Cluster) (k : Nat) : List Cluster :=
  listModify (fun c => { c with active := !c.active }) k cs

/-- `mergeClusters` (clustering.cpp lines 493-517): concatenates the two
member lists (A first), repoints every member to `nextId`, toggles both
parents' status and appends the new active cluster carrying the link
distance as its `maxDistance`. -/
def mergeClusters (st : ClState) (ca cb nextId : Nat) (dist : ℚ) : ClState :=
  let ms := membersOf st ca ++ membersOf st cb
  { nodeCluster := setNodeClusters st.nodeCluster ms nextId
    clusters := toggleActive (toggleActive st.clusters ca) cb ++ [⟨nextId, ms, dist, true⟩] }

/-- `clusterList[k]->setMaxDistance(d)`. -/
def setMaxDist (st : ClState) (k : Nat) (d : ℚ) : ClState :=
  { st with clusters := listModify (fun c => { c with maxDistance := d }) k st.clusters }

/-- The `Link` class (link.h): the two node ids and the distance. -/
structure Link where
  nodeA : Nat
  nodeB : Nat
  distance : ℚ
deriving Repr, DecidableEq

/-- `initLinks` (clustering.cpp lines 82-93): one link per unordered pair
(i, j), i < j, with the normalized distance.  The links are then consumed
through the priority queue in ascending distance order. -/
def initLinks (totalNodes : Nat) (norm : List (List ℚ)) : List Link :=
  (tab (fun i => tab (fun j => Link.mk i (i + 1 + j) (mget norm i (i + 1 + j)))
    (totalNodes - (i + 1))) (totalNodes - 1)).flatten

/-! ## Merge-queue policies (clustering.cpp lines 95-296) -/

/-- Loop body of `doHierarchical` (clustering.cpp lines 272-296): merge
whenever the two ends are in different clusters. -/
def hStep (st : ClState) (l : Link) : ClState :=
  if clusterOf st l.nodeA ≠ clusterOf st l.nodeB then
    mergeClusters st (clusterOf st l.nodeA) (clusterOf st l.nodeB)
      st.clusters.length l.distance
  else st

/-- `doHierarchical` consumes every link of the queue (its `while` tests
emptiness before popping). -/
def doHierarchical (links : List Link) (st : ClState) : ClState :=
  links.foldl hStep st

/-- Loop body of `doHierarchicalCutoff` (clustering.cpp lines 95-137):
below the cutoff merge distinct clusters or record the distance on the
shared cluster; at or above the cutoff only record on a shared cluster. -/
def hcStep (cutoff : ℚ) (st : ClState) (l : Link) : ClState :=
  if l.distance < cutoff then
    if clusterOf st l.nodeA ≠ clusterOf st l.nodeB then
      mergeClusters st (clusterOf st l.nodeA) (clusterOf st l.nodeB)
        st.clusters.length l.distance
    else setMaxDist st (clusterOf st l.nodeA) l.distance
  else
    if clusterOf st l.nodeA = clusterOf st l.nodeB then
      setMaxDist st (clusterOf st l.nodeA) l.distance
    else st

/-- The shared pop-before-test loop skeleton of the three cutoff-gated
policies: `nextLink = top(); pop(); while (!empty()) { decide(nextLink);
nextLink = top(); pop(); }`.  `next` is the already-popped link, `rest`
the remaining queue contents. -/
def cutoffLoop (step : ClState → Link → ClState) : Link → List Link → ClState → ClState
  | _, [], st => st
  | next, l :: rest, st => cutoffLoop step l rest (step st next)

/-- `doHierarchicalCutoff` on a queue given in pop (ascending-distance)
order.  An empty queue is left untouched (in C++ `top()` on an empty
queue is undefined; the program always supplies at least one link). -/
def doHierarchicalCutoff (cutoff : ℚ) (links : List Link) (st : ClState) : ClState :=
  match links with
  | [] => st
  | l :: rest => cutoffLoop (hcStep cutoff) l rest st

/-- The all-pairs check of `doStrictHierarchicalCutoff` (clustering.cpp
lines 151-167): `pairWise` stays true iff every cross distance between
the two member lists is below the cutoff. -/
def pairwiseBelow (norm : List (List ℚ)) (cutoff : ℚ) (msA msB : List Nat) : Bool :=
  msA.all (fun i => msB.all (fun j => mget norm i j < cutoff))

/-- Loop body of `doStrictHierarchicalCutoff` (clustering.cpp lines
139-202). -/
def shcStep (norm : List (List ℚ)) (cutoff : ℚ) (st : ClState) (l : Link) : ClState :=
  if l.distance < cutoff then
    if pairwiseBelow norm cutoff (membersOf st (clusterOf st l.nodeA))
        (membersOf st (clusterOf st l.nodeB)) then
      if clusterOf st l.nodeA ≠ clusterOf st l.nodeB then
        mergeClusters st (clusterOf st l.nodeA) (clusterOf st l.nodeB)
          st.clusters.length l.distance
      else setMaxDist st (clusterOf st l.nodeA) l.distance
    else st
  else
    if clusterOf st l.nodeA = clusterOf st l.nodeB then
      setMaxDist st (clusterOf st l.nodeA) l.distance
    else st

/-- `doStrictHierarchicalCutoff` on a queue in pop order. -/
def doStrictHierarchicalCutoff (norm : List (List ℚ)) (cutoff : ℚ)
    (links : List Link) (st : ClState) : ClState :=
  match links with
  | [] => st
  | l :: rest => cutoffLoop (shcStep norm cutoff) l rest st

/-- The average cross distance computed by `doUPGMA` (clustering.cpp
lines 221-231). -/
def avgCross (norm : List (List ℚ)) (msA msB : List Nat) : ℚ :=
  (msA.map (fun i => (msB.map (fun j => mget norm i j)).sum)).sum
    / ((msA.length : ℚ) * (msB.length : ℚ))

/-- Loop body of `doUPGMA` (clustering.cpp lines 204-270). -/
def upgmaStep (norm : List (List ℚ)) (cutoff : ℚ) (st : ClState) (l : Link) : ClState :=
  if l.distance < cutoff then
    if avgCross norm (membersOf st (clusterOf st l.nodeA))
        (membersOf st (clusterOf st l.nodeB)) < cutoff then
      if clusterOf st l.nodeA ≠ clusterOf st l.nodeB then
        mergeClusters st (clusterOf st l.nodeA) (clusterOf st l.nodeB)
          st.clusters.length l.distance
      else setMaxDist st (clusterOf st l.nodeA) l.distance
    else st
  else
    if clusterOf st l.nodeA = clusterOf st l.nodeB then
      setMaxDist st (clusterOf st l.nodeA) l.distance
    else st

/-- `doUPGMA` on a queue in pop order. -/
def doUPGMA (norm : List (List ℚ)) (cutoff : ℚ) (links : List Link) (st : ClState) : ClState :=
  match links with
  | [] => st
  | l :: rest => cutoffLoop (upgmaStep norm cutoff) l rest st

/-- `Cluster::calcMaxDistance` (cluster.cpp lines 54-67): maximum of all
(ordered) member-pair distances, starting from 0. -/
def calcMaxDistance (norm : List (List ℚ)) (ms : List Nat) : ℚ :=
  ms.foldl (fun acc i => ms.foldl (fun acc2 j => max acc2 (mget norm i j)) acc) 0

/-! ## SPICKER (`doSpickerCutoff`, clustering.cpp lines 298-372) -/

/-- State threaded through `doSpickerCutoff`: the working copy
`tempMatrix`, the node back references, the master cluster list and the
`orphans` counter (an `int` in the source). -/
structure SpState where
  temp : List (List ℚ)
  nodeCluster : List Nat
  clusters : List Cluster
  orphans : Int
deriving Repr, DecidableEq

/-- Neighbor count of one row: entries with `value < cutoff` and
`value >= 0` (clustering.cpp line 327). -/
def nbCountRow (cutoff : ℚ) (row : List ℚ) : Nat :=
  row.countP (fun v => decide (v < cutoff) && decide (0 ≤ v))

/-- The row-selection scan (clustering.cpp lines 322-334): `maxRow`
starts at -1, `maxNb` at 0, and a row whose count reaches the running
maximum replaces the current choice (the source uses `>=`). -/
def selectRowAux (cutoff : ℚ) : List (List ℚ) → Nat → Int → Nat → Int × Nat
  | [], _, mr, mn => (mr, mn)
  | row :: rest, i, mr, mn =>
    let c := nbCountRow cutoff row
    selectRowAux cutoff rest (i + 1) (if mn ≤ c then (i : Int) else mr)
      (if mn ≤ c then c else mn)

/-- Result of the full scan over the working matrix. -/
def selectMaxRow (cutoff : ℚ) (temp : List (List ℚ)) : Int × Nat :=
  selectRowAux cutoff temp 0 (-1) 0

/-- Set column `col` of every row to `v` (the inner
`for (j...) tempMatrix[j][i] = -1;` loop). -/
def setColumn (temp : List (List ℚ)) (col : Nat) (v : ℚ) : List (List ℚ) :=
  temp.map (fun row => row.set col v)

/-- One index `i` of the harvesting loop (clustering.cpp lines 342-362):
if entry `(maxRow, i)` is eligible, append node i to the member list,
toggle its previous cluster's status, repoint it to `nextCluster`, erase
entry `(maxRow, i)` and then all of column i, and decrement `orphans`. -/
def spickerAssign (cutoff : ℚ) (mr nextCluster : Nat)
    (acc : SpState × List Nat) (i : Nat) : SpState × List Nat :=
  let st := acc.1
  let v := mget st.temp mr i
  if v < cutoff ∧ 0 ≤ v then
    ({ temp := setColumn (listModify (fun row => row.set i (-1)) mr st.temp) i (-1)
       nodeCluster := st.nodeCluster.set i nextCluster
       clusters := toggleActive st.clusters (st.nodeCluster.getD i 0)
       orphans := st.orphans - 1 }, acc.2 ++ [i])
  else acc

/-- One pass of the SPICKER outer `while` loop: select the row, harvest
its eligible entries, and append the new cluster whose `maxDistance` is
computed from the original matrix.  `nextCluster` equals the current
cluster list length: the source initializes it to `clusterList.size()`
and increments it in step with each `push_back`. -/
def spickerIter (cutoff : ℚ) (totalNodes : Nat) (norm : List (List ℚ))
    (st : SpState) : SpState :=
  let mr := (selectMaxRow cutoff st.temp).1.toNat
  let nextCluster := st.clusters.length
  let p := (List.range totalNodes).foldl (spickerAssign cutoff mr nextCluster) (st, [])
  { p.1 with clusters := p.1.clusters ++ [⟨nextCluster, p.2, calcMaxDistance norm p.2, true⟩] }

/-- The outer `while (orphans > 0)` loop, run with explicit fuel (the
source loop has no structural bound; `doSpickerCutoff` below supplies
fuel `totalNodes`, which suffices whenever each pass assigns at least
one element). -/
def spickerRun (cutoff : ℚ) (totalNodes : Nat) (norm : List (List ℚ)) :
    Nat → SpState → SpState
  | 0, st => st
  | fuel + 1, st =>
    if 0 < st.orphans then
      spickerRun cutoff totalNodes norm fuel (spickerIter cutoff totalNodes norm st)
    else st

/-- Initial SPICKER state as set up by `main`: working copy of the
matrix, singleton clusters from `initNodesAndClusters`, all nodes
orphans. -/
def spickerInit (totalNodes : Nat) (norm : List (List ℚ)) : SpState :=
  { temp := norm
    nodeCluster := (initState totalNodes).nodeCluster
    clusters := (initState totalNodes).clusters
    orphans := (totalNodes : Int) }

/-- `doSpickerCutoff` from the freshly initialized state. -/
def doSpickerCutoff (cutoff : ℚ) (totalNodes : Nat) (norm : List (List ℚ)) : SpState :=
  spickerRun cutoff totalNodes norm totalNodes (spickerInit totalNodes norm)

/-! ## k-medoid (`doKMeans`, clustering.cpp lines 375-491) -/

/-- The closest-medoid scan of the assignment step (clustering.cpp lines
466-482): running best index and best distance; the FLT_MAX sentinel is
modelled as `none` (every distance is below it, so the first candidate
always wins, matching `closestMean = means[0]`). -/
def closestAux (norm : List (List ℚ)) (i : Nat) :
    List Nat → Nat → Nat → Option ℚ → Nat
  | [], _, best, _ => best
  | m :: rest, k, best, bd =>
    let d := mget norm i m
    match bd with
    | none => closestAux norm i rest (k + 1) k (some d)
    | some b =>
      if d < b then closestAux norm i rest (k + 1) k (some d)
      else closestAux norm i rest (k + 1) best (some b)

/-- Index (cluster number) of the medoid closest to node `i`; ties keep
the earliest index because only a strictly smaller distance replaces the
running best. -/
def closestMeanIdx (norm : List (List ℚ)) (means : List Nat) (i : Nat) : Nat :=
  closestAux norm i means 0 0 none

/-- The assignment step: every node is pushed onto `kMembers[closest]`
in node order (clustering.cpp lines 466-486, followed by `setMembers`). -/
def assignAll (norm : List (List ℚ)) (means : List Nat) (totalNodes : Nat) :
    List (List Nat) :=
  (List.range totalNodes).foldl
    (fun km i => listModify (fun l => l ++ [i]) (closestMeanIdx norm means i) km)
    (means.map (fun _ => []))

/-- Sum of distances from member `m` to all other members. -/
def sumDistTo (norm : List (List ℚ)) (ms : List Nat) (m : Nat) : ℚ :=
  ((ms.filter (fun x => x ≠ m)).map (fun x => mget norm m x)).sum

/-- Modelled from the spec: `Cluster::calcMean` is called by `doKMeans`
(clustering.cpp line 454) but its definition is absent from src/ (the
Cluster class in cluster.h/cluster.cpp has no `calcMean`, `getMean` or
`setMembers`).  Per spec section 4.6, the mean/medoid is the member
minimizing the sum of distances to all other members, ties keeping the
first-found minimizer. -/
def calcMean (norm : List (List ℚ)) (ms : List Nat) : Nat :=
  match ms with
  | [] => 0
  | m :: rest =>
    rest.foldl (fun best x =>
      if sumDistTo norm ms x < sumDistTo norm ms best then x else best) m

/-- One body of the `do { ... } while (!convergence)` loop of `doKMeans`:
recompute each cluster's medoid from its current members, then reassign
every node to the closest new medoid.  The state is the medoid list
paired with the per-cluster member lists. -/
def kmeansCycle (norm : List (List ℚ)) (totalNodes : Nat)
    (s : List Nat × List (List Nat)) : List Nat × List (List Nat) :=
  let means2 := s.2.map (calcMean norm)
  (means2, assignAll norm means2 totalNodes)

/-! ## Parameter reading (`readParameters`, input.cpp lines 51-105) -/

/-- Configuration fields filled in by `readParameters`. -/
structure ParamState where
  hMenu : Bool
  inpFile : String
  clusterAlg : Int
  measureType : Int
  cutoff : ℚ
deriving Repr, DecidableEq

/-- Decimal digit run parser: accumulates leading digits, stops at the
first non-digit (the core of C `atoi`/`atof`). -/
def digitsVal : List Char → Nat → Nat
  | [], acc => acc
  | c :: cs, acc => if c.isDigit then digitsVal cs (acc * 10 + (c.toNat - 48)) else acc

/-- C `atoi`: optional leading spaces, optional sign, leading digits,
0 when nothing parses. -/
def atoiModel (s : String) : Int :=
  let rec go : List Char → Int
    | [] => 0
    | c :: cs =>
      if c = ' ' then go cs
      else if c = '-' then -(digitsVal cs 0 : Int)
      else if c = '+' then (digitsVal cs 0 : Int)
      else (digitsVal (c :: cs) 0 : Int)
  go s.toList

/-- Split a leading digit run from the rest. -/
def takeDigits : List Char → List Char × List Char
  | [] => ([], [])
  | c :: cs =>
    if c.isDigit then
      let p := takeDigits cs
      (c :: p.1, p.2)
    else ([], c :: cs)

/-- Value of a digit list read most significant first. -/
def digitsToNat (ds : List Char) : Nat :=
  ds.foldl (fun a c => a * 10 + (c.toNat - 48)) 0

/-- Magnitude part of C `atof`: integer digits and an optional decimal
fraction. -/
def atofMag (cs : List Char) : ℚ :=
  let p := takeDigits cs
  let ip : ℚ := (digitsToNat p.1 : ℚ)
  match p.2 with
  | '.' :: rest =>
    let f := takeDigits rest
    ip + (digitsToNat f.1 : ℚ) / ((10 : ℚ) ^ f.1.length)
  | _ => ip

/-- C `atof` on the decimal forms the program uses. -/
def atofModel (s : String) : ℚ :=
  let rec go : List Char → ℚ
    | [] => 0
    | c :: cs =>
      if c = ' ' then go cs
      else if c = '-' then -(atofMag cs)
      else if c = '+' then atofMag cs
      else atofMag (c :: cs)
  go s.toList

/-- One index of the argument scan (input.cpp lines 56-81): `-h` sets the
help flag; when a following argument exists, `-f`/`-s`/`-m`/`-d` read it. -/
def paramStep (argv : List String) (ps : ParamState) (i : Nat) : ParamState :=
  let ai := argv.getD i ""
  let ps1 := if ai = "-h" then { ps with hMenu := true } else ps
  if i + 1 ≠ argv.length then
    if ai = "-f" then { ps1 with inpFile := argv.getD (i + 1) "" }
    else if ai = "-s" then { ps1 with clusterAlg := atoiModel (argv.getD (i + 1) "") }
    else if ai = "-m" then { ps1 with measureType := atoiModel (argv.getD (i + 1) "") }
    else if ai = "-d" then { ps1 with cutoff := atofModel (argv.getD (i + 1) "") }
    else ps1
  else ps1

/-- `readParameters` (input.cpp lines 51-105): scan the arguments from
index 1, then validate.  The policy guard is transcribed exactly as
written in the source: `clusterAlg > 4 && clusterAlg < 0`.  Returns the
status (0 = continue, 1 = stop) and the final configuration. -/
def readParameters (argv : List String) (ps0 : ParamState) : Int × ParamState :=
  let ps := ((List.range argv.length).drop 1).foldl (paramStep argv) ps0
  if ps.hMenu then (1, ps)
  else if 4 < ps.clusterAlg ∧ ps.clusterAlg < 0 then (1, ps)
  else if ps.measureType < 0 ∨ 1 < ps.measureType then (1, ps)
  else if ps.measureType = 1 ∧ ps.clusterAlg ≠ 2 then (0, { ps with cutoff := 1 - ps.cutoff })
  else (0, ps)

/-- Caller-side defaults of the user parameters (main.cpp lines 168-173). -/
def defaultParams : ParamState :=
  { hMenu := false, inpFile := "TMData", clusterAlg := 1, measureType := 1,
    cutoff := mkRat 5908 10000 }

/-! ## Generic list access lemmas -/

theorem length_listModify (f : α → α) (k : Nat) (xs : List α) :
    (listModify f k xs).length = xs.length := by
  induction xs generalizing k with
  | nil => cases k <;> rfl
  | cons a as ih =>
    cases k with
    | zero => rfl
    | succ n => simpa [listModify] using ih n

theorem getD_listModify (f : α → α) (k : Nat) (xs : List α) (c : Nat) (d : α) :
    (listModify f k xs).getD c d =
      if c = k ∧ k < xs.length then f (xs.getD c d) else xs.getD c d := by
  induction xs generalizing k c with
  | nil => cases k <;> simp [listModify]
  | cons a as ih =>
    cases k with
    | zero =>
      cases c with
      | zero => simp [listModify]
      | succ m => simp [listModify]
    | succ n =>
      cases c with
      | zero => simp [listModify]
      | succ m =>
        simp only [listModify, List.getD_cons_succ, List.length_cons, ih n m]
        by_cases h : m = n ∧ n < as.length
        · rw [if_pos h, if_pos (by omega)]
        · rw [if_neg h, if_neg (by omega)]

theorem getD_set' (xs : List α) (i : Nat) (v : α) (j : Nat) (d : α) :
    ((xs.set i v).getD j d) = if j = i ∧ i < xs.length then v else xs.getD j d := by
  induction xs generalizing i j with
  | nil => simp
  | cons a as ih =>
    cases i with
    | zero =>
      cases j with
      | zero => simp
      | succ m => simp
    | succ n =>
      cases j with
      | zero => simp
      | succ m =>
        simp only [List.set_cons_succ, List.getD_cons_succ, List.length_cons, ih n m]
        by_cases h : m = n ∧ n < as.length
        · rw [if_pos h, if_pos (by omega)]
        · rw [if_neg h, if_neg (by omega)]

theorem getD_append_low (xs ys : List α) (k : Nat) (d : α) (h : k < xs.length) :
    ((xs ++ ys).getD k d) = xs.getD k d := by
  rw [List.getD_eq_getElem?_getD, List.getD_eq_getElem?_getD,
    List.getElem?_append_left h]

theorem getD_append_high (xs ys : List α) (k : Nat) (d : α) (h : xs.length ≤ k) :
    ((xs ++ ys).getD k d) = ys.getD (k - xs.length) d := by
  rw [List.getD_eq_getElem?_getD, List.getD_eq_getElem?_getD,
    List.getElem?_append_right h]

/-- Value of `foldl max` over a list that contains an upper bound. -/
theorem foldl_max_eq (L : List ℚ) (x : ℚ) : ∀ a : ℚ, (x ∈ L ∨ x = a) →
    (∀ y ∈ L, y ≤ x) → a ≤ x → L.foldl max a = x := by
  induction L with
  | nil =>
    intro a hmem _ _
    rcases hmem with h | h
    · cases h
    · exact h.symm
  | cons y ys ih =>
    intro a hmem hub ha
    simp only [List.foldl_cons]
    have hy : y ≤ x := hub y (List.mem_cons_self y ys)
    have hub' : ∀ z ∈ ys, z ≤ x := fun z hz => hub z (List.mem_cons_of_mem _ hz)
    rcases hmem with h | h
    · rcases List.mem_cons.mp h with h' | h'
      · subst h'
        exact ih (max a x) (Or.inr (max_eq_right ha).symm) hub' (max_le ha le_rfl)
      · exact ih (max a y) (Or.inl h') hub' (max_le ha hy)
    · subst h
      exact ih (max x y) (Or.inr (max_eq_left hy).symm) hub' (max_le le_rfl hy)

theorem foldl_max_le (L : List ℚ) (x : ℚ) : ∀ a : ℚ, a ≤ x →
    (∀ y ∈ L, y ≤ x) → L.foldl max a ≤ x := by
  induction L with
  | nil => intro a ha _; simpa using ha
  | cons y ys ih =>
    intro a ha hub
    exact ih (max a y) (max_le ha (hub y (List.mem_cons_self y ys)))
      (fun z hz => hub z (List.mem_cons_of_mem _ hz))

/-! ## Claim C1: the normalization formula, zero diagonal, symmetry -/

/-- C1: for every element count N and raw score array, `initScores`
produces an N-by-N matrix in which, off the diagonal, a pair with both
raw scores zero maps to 0, a pair with exactly one zero maps to the
arithmetic mean, and a pair with both nonzero maps to the harmonic mean;
every diagonal entry is 0; and the matrix is symmetric. -/
theorem initScores_spec (N : Nat) (raw : Nat → ℚ) (i j : Nat)
    (hi : i < N) (hj : j < N) :
    (i ≠ j →
      ((raw (i * N + j) = 0 ∧ raw (j * N + i) = 0 →
          mget (initScores N raw) i j = 0) ∧
       ((raw (i * N + j) = 0 ∧ raw (j * N + i) ≠ 0) ∨
        (raw (i * N + j) ≠ 0 ∧ raw (j * N + i) = 0) →
          mget (initScores N raw) i j = (raw (i * N + j) + raw (j * N + i)) / 2) ∧
       (raw (i * N + j) ≠ 0 ∧ raw (j * N + i) ≠ 0 →
          mget (initScores N raw) i j =
            2 * (raw (i * N + j) * raw (j * N + i)) /
              (raw (i * N + j) + raw (j * N + i))))) ∧
    mget (initScores N raw) i i = 0 ∧
    mget (initScores N raw) i j = mget (initScores N raw) j i := by
  rw [initScores_entry N raw hi hj, initScores_entry N raw hi hi,
    initScores_entry N raw hj hi]
  unfold initScoresEntry
  refine ⟨fun hne => ⟨?_, ?_, ?_⟩, ?_, ?_⟩
  · rintro ⟨h1, h2⟩
    rw [if_neg hne]
    split_ifs <;> first | rfl | tauto
  · rintro (⟨h1, h2⟩ | ⟨h1, h2⟩) <;> rw [if_neg hne] <;>
      split_ifs <;> first | rfl | tauto
  · rintro ⟨h1, h2⟩
    rw [if_neg hne]
    split_ifs <;> first | rfl | tauto
  · simp
  · by_cases hne : i = j
    · simp [hne]
    · rw [if_neg hne, if_neg (Ne.symm hne)]
      split_ifs <;> first | rfl | tauto | ring

/-- Witness for C1 at a concrete input: N = 2 and raw scores 1 and 3 for
the off-diagonal pair give the harmonic mean 3/2 and a symmetric matrix. -/
theorem initScores_spec_witness :
    mget (initScores 2 (fun k => [0, 1, 3, 0].getD k 0)) 0 1 =
      2 * ((1 : ℚ) * 3) / (1 + 3) ∧
    mget (initScores 2 (fun k => [0, 1, 3, 0].getD k 0)) 0 1 =
      mget (initScores 2 (fun k => [0, 1, 3, 0].getD k 0)) 1 0 := by
  have h := initScores_spec 2 (fun k => [0, 1, 3, 0].getD k 0) 0 1
    (by decide) (by decide)
  exact ⟨by simpa using (h.1 (by decide)).2.2 (by constructor <;> norm_num), h.2.2⟩

/-! ## Claim C7: the concrete two-tight-pairs scenario -/

/-- Normalized matrix of the 4-element scenario: d(0,1) = d(2,3) = 1/10,
every cross pair 9/10, zero diagonal. -/
def norm4 : List (List ℚ) :=
  [[0, mkRat 1 10, mkRat 9 10, mkRat 9 10],
   [mkRat 1 10, 0, mkRat 9 10, mkRat 9 10],
   [mkRat 9 10, mkRat 9 10, 0, mkRat 1 10],
   [mkRat 9 10, mkRat 9 10, mkRat 1 10, 0]]

/-- The scenario's link queue in ascending pop order (a valid extraction
order of the priority queue; the two 1/10 links tie and may pop in either
order, both giving the same run). -/
def links4 : List Link :=
  [⟨0, 1, mkRat 1 10⟩, ⟨2, 3, mkRat 1 10⟩, ⟨0, 2, mkRat 9 10⟩, ⟨0, 3, mkRat 9 10⟩,
   ⟨1, 2, mkRat 9 10⟩, ⟨1, 3, mkRat 9 10⟩]

/-- Member lists of the active clusters, in cluster list order. -/
def activeMembers (st : ClState) : List (List Nat) :=
  (st.clusters.filter (fun c => c.active)).map (fun c => c.members)

/-- C7: on the two-tight-pairs input, cutoff-hierarchical clustering at
cutoff 1/2 ends with exactly the two active clusters with member lists
[0,1] and [2,3]; strict (complete-link) clustering at cutoff 95/100 ends
with one active cluster holding all four elements; and strict clustering
at cutoff 1/2 ends with the two active clusters [0,1] and [2,3].  The
link list is a permutation of `initLinks 4 norm4` sorted ascending. -/
theorem two_pairs_scenario :
    links4.Perm (initLinks 4 norm4) ∧
    links4.Pairwise (fun a b => a.distance ≤ b.distance) ∧
    activeMembers (doHierarchicalCutoff (mkRat 1 2) links4 (initState 4)) = [[0, 1], [2, 3]] ∧
    activeMembers (doStrictHierarchicalCutoff norm4 (mkRat 95 100) links4 (initState 4)) =
      [[0, 1, 2, 3]] ∧
    activeMembers (doStrictHierarchicalCutoff norm4 (mkRat 1 2) links4 (initState 4)) =
      [[0, 1], [2, 3]] := by
  refine ⟨by decide, by decide, by decide, by decide, by decide⟩

/-! ## Claim C8: the pop-before-test loops drop the final link -/

theorem cutoffLoop_eq_foldl_dropLast (step : ClState → Link → ClState) :
    ∀ (rest : List Link) (next : Link) (st : ClState),
      cutoffLoop step next rest st = ((next :: rest).dropLast).foldl step st := by
  intro rest
  induction rest with
  | nil => intro next st; rfl
  | cons l rest' ih =>
    intro next st
    show cutoffLoop step l rest' (step st next) = _
    rw [ih l (step st next)]
    rfl

/-- C8: each of the three cutoff-gated loops examines exactly the first
L-1 links of an L-link queue: the run equals a fold of the decision step
over `dropLast`, whose length is L-1, and when the queue is sorted
ascending the dropped link's distance is maximal.  In particular the
dropped link is never examined, so a same-cluster final link never
updates `maxDistance`. -/
theorem cutoff_loops_drop_last (norm : List (List ℚ)) (cutoff : ℚ)
    (st : ClState) (l : Link) (rest : List Link) :
    (doHierarchicalCutoff cutoff (l :: rest) st =
        ((l :: rest).dropLast).foldl (hcStep cutoff) st ∧
      doStrictHierarchicalCutoff norm cutoff (l :: rest) st =
        ((l :: rest).dropLast).foldl (shcStep norm cutoff) st ∧
      doUPGMA norm cutoff (l :: rest) st =
        ((l :: rest).dropLast).foldl (upgmaStep norm cutoff) st) ∧
    ((l :: rest).dropLast).length = (l :: rest).length - 1 ∧
    ((l :: rest).Pairwise (fun a b => a.distance ≤ b.distance) →
      ∀ l' ∈ (l :: rest).dropLast,
        l'.distance ≤ ((l :: rest).getLast (List.cons_ne_nil l rest)).distance) := by
  refine ⟨⟨cutoffLoop_eq_foldl_dropLast _ rest l st,
    cutoffLoop_eq_foldl_dropLast _ rest l st,
    cutoffLoop_eq_foldl_dropLast _ rest l st⟩, by simp, ?_⟩
  intro hsort
  have main : ∀ (xs : List Link) (h : xs ≠ []),
      xs.Pairwise (fun a b => a.distance ≤ b.distance) →
      ∀ x ∈ xs.dropLast, x.distance ≤ (xs.getLast h).distance := by
    intro xs
    induction xs with
    | nil => intro h; exact absurd rfl h
    | cons a t ih =>
      intro _ hp x hx
      cases t with
      | nil => simp at hx
      | cons b t' =>
        rw [List.getLast_cons (List.cons_ne_nil b t')]
        rcases List.mem_cons.mp (by simpa using hx) with h' | h'
        · subst h'
          exact (List.pairwise_cons.mp hp).1 _ (List.getLast_mem _)
        · exact ih (List.cons_ne_nil b t') (List.pairwise_cons.mp hp).2 x h'
  exact main (l :: rest) (List.cons_ne_nil l rest) hsort

/-- Witness for C8 at a concrete three-link queue. -/
theorem cutoff_loops_drop_last_witness :
    doHierarchicalCutoff (mkRat 1 2)
        [⟨0, 1, mkRat 3 10⟩, ⟨1, 2, mkRat 2 5⟩, ⟨0, 2, mkRat 9 20⟩] (initState 3) =
      [(⟨0, 1, mkRat 3 10⟩ : Link), ⟨1, 2, mkRat 2 5⟩].foldl (hcStep (mkRat 1 2)) (initState 3) ∧
    (Link.mk 1 2 (mkRat 2 5)).distance ≤
      (([⟨0, 1, mkRat 3 10⟩, ⟨1, 2, mkRat 2 5⟩, ⟨0, 2, mkRat 9 20⟩] : List Link).getLast
        (List.cons_ne_nil _ _)).distance := by
  have h := cutoff_loops_drop_last [] (mkRat 1 2) (initState 3) ⟨0, 1, mkRat 3 10⟩
    [⟨1, 2, mkRat 2 5⟩, ⟨0, 2, mkRat 9 20⟩]
  exact ⟨h.1.1, h.2.2 (by decide) _ (by decide)⟩

/-! ## Claim C9: the policy-selector guard in readParameters is dead -/

/-- C9: `readParameters` fails to reject an undocumented policy selector:
with arguments "-s 9" it returns status 0 (continue) and clusterAlg 9,
because its guard `clusterAlg > 4 && clusterAlg < 0` is unsatisfiable for
every integer (the conjunction should have been a disjunction, as in the
equivalent check in main.cpp lines 200-204, which does reject).  The
measure-type guard does reject out-of-range values. -/
theorem readParameters_policy_bug :
    (readParameters ["prog", "-s", "9"] defaultParams).1 = 0 ∧
    (readParameters ["prog", "-s", "9"] defaultParams).2.clusterAlg = 9 ∧
    (∀ a : Int, ¬(4 < a ∧ a < 0)) ∧
    (readParameters ["prog", "-m", "5"] defaultParams).1 = 1 := by
  refine ⟨by decide, by decide, fun a h => by omega, by decide⟩

/-! ## Claim C2: SPICKER row selection -/

/-- C2 counterexample: at cutoff 1/2 on the matrix [[0,9],[9,0]] both
rows have the same maximal neighbor count 1 (their diagonal zero), yet
the scan selects row 1, not the lowest-index row 0: the source's `>=`
comparison lets later rows take over on ties. -/
theorem spicker_rowSelect_counterexample :
    nbCountRow (mkRat 1 2) [0, 9] = 1 ∧ nbCountRow (mkRat 1 2) [9, 0] = 1 ∧
    (selectMaxRow (mkRat 1 2) [[0, 9], [9, 0]]).2 = 1 ∧
    (selectMaxRow (mkRat 1 2) [[0, 9], [9, 0]]).1 ≠ 0 ∧
    (selectMaxRow (mkRat 1 2) [[0, 9], [9, 0]]).1 = 1 := by
  refine ⟨by decide, by decide, by decide, by decide, by decide⟩

theorem selectRowAux_spec (cutoff : ℚ) :
    ∀ (rows : List (List ℚ)) (s : Nat) (mr0 : Int) (mn0 : Nat),
      (∀ k, k < rows.length →
        nbCountRow cutoff (rows.getD k []) ≤ (selectRowAux cutoff rows s mr0 mn0).2) ∧
      mn0 ≤ (selectRowAux cutoff rows s mr0 mn0).2 ∧
      ((selectRowAux cutoff rows s mr0 mn0 = (mr0, mn0) ∧
          ∀ k, k < rows.length → nbCountRow cutoff (rows.getD k []) < mn0) ∨
        (∃ k, k < rows.length ∧
          (selectRowAux cutoff rows s mr0 mn0).1 = (s + k : Int) ∧
          nbCountRow cutoff (rows.getD k []) = (selectRowAux cutoff rows s mr0 mn0).2 ∧
          ∀ k', k < k' → k' < rows.length →
            nbCountRow cutoff (rows.getD k' []) < (selectRowAux cutoff rows s mr0 mn0).2)) := by
  intro rows
  induction rows with
  | nil =>
    intro s mr0 mn0
    exact ⟨fun k hk => absurd hk (by simp), le_rfl,
      Or.inl ⟨rfl, fun k hk => absurd hk (by simp)⟩⟩
  | cons row rest ih =>
    intro s mr0 mn0
    show _ ∧ _ ∧ _
    have hstep : selectRowAux cutoff (row :: rest) s mr0 mn0 =
        selectRowAux cutoff rest (s + 1)
          (if mn0 ≤ nbCountRow cutoff row then (s : Int) else mr0)
          (if mn0 ≤ nbCountRow cutoff row then nbCountRow cutoff row else mn0) := rfl
    by_cases hc : mn0 ≤ nbCountRow cutoff row
    · rw [hstep, if_pos hc, if_pos hc]
      obtain ⟨P1, P2, P3⟩ := ih (s + 1) (s : Int) (nbCountRow cutoff row)
      refine ⟨?_, le_trans hc P2, ?_⟩
      · intro k hk
        cases k with
        | zero => simpa using P2
        | succ m => simpa using P1 m (by simpa using hk)
      · rcases P3 with ⟨heq, hall⟩ | ⟨k, hk, h1, h2, h3⟩
        · refine Or.inr ⟨0, by simp, ?_, ?_, ?_⟩
          · rw [heq]; simp
          · rw [heq]; simp
          · intro k' hk0 hk'
            cases k' with
            | zero => omega
            | succ m => rw [heq]; simpa using hall m (by simpa using hk')
        · refine Or.inr ⟨k + 1, by simpa using hk, ?_, by simpa using h2, ?_⟩
          · rw [h1]; push_cast; ring
          · intro k' hk0 hk'
            cases k' with
            | zero => omega
            | succ m => simpa using h3 m (by omega) (by simpa using hk')
    · rw [hstep, if_neg hc, if_neg hc]
      obtain ⟨P1, P2, P3⟩ := ih (s + 1) mr0 mn0
      refine ⟨?_, P2, ?_⟩
      · intro k hk
        cases k with
        | zero => simpa using le_trans (le_of_lt (by omega)) P2
        | succ m => simpa using P1 m (by simpa using hk)
      · rcases P3 with ⟨heq, hall⟩ | ⟨k, hk, h1, h2, h3⟩
        · refine Or.inl ⟨heq, ?_⟩
          intro k hk'
          cases k with
          | zero => simpa using (by omega : nbCountRow cutoff row < mn0)
          | succ m => simpa using hall m (by simpa using hk')
        · refine Or.inr ⟨k + 1, by simpa using hk, ?_, by simpa using h2, ?_⟩
          · rw [h1]; push_cast; ring
          · intro k' hk0 hk'
            cases k' with
            | zero => omega
            | succ m => simpa using h3 m (by omega) (by simpa using hk')

/-- C2 amended: in every SPICKER iteration the selected row does carry a
maximal count of eligible entries over all rows, but when several rows
attain that maximum the scan selects the one with the highest index (the
last found), not the lowest: the source updates `maxRow` on `>=`. -/
theorem spicker_rowSelect_amended (cutoff : ℚ) (temp : List (List ℚ))
    (hne : temp ≠ []) :
    0 ≤ (selectMaxRow cutoff temp).1 ∧
    (selectMaxRow cutoff temp).1.toNat < temp.length ∧
    nbCountRow cutoff (temp.getD (selectMaxRow cutoff temp).1.toNat []) =
      (selectMaxRow cutoff temp).2 ∧
    (∀ k, k < temp.length →
      nbCountRow cutoff (temp.getD k []) ≤ (selectMaxRow cutoff temp).2) ∧
    (∀ k, k < temp.length →
      nbCountRow cutoff (temp.getD k []) = (selectMaxRow cutoff temp).2 →
      k ≤ (selectMaxRow cutoff temp).1.toNat) := by
  obtain ⟨P1, _, P3⟩ := selectRowAux_spec cutoff temp 0 (-1) 0
  rcases P3 with ⟨_, hall⟩ | ⟨k, hk, h1, h2, h3⟩
  · exact absurd (hall 0 (by cases temp with | nil => exact absurd rfl hne | cons a t => simp))
      (by omega)
  · have hmr : (selectMaxRow cutoff temp).1 = (k : Int) := by
      unfold selectMaxRow; rw [h1]; ring
    have htn : (selectMaxRow cutoff temp).1.toNat = k := by rw [hmr]; simp
    refine ⟨by rw [hmr]; positivity, by rw [htn]; exact hk, by rw [htn]; exact h2, P1, ?_⟩
    intro k' hk' hcnt
    rw [htn]
    by_contra hgt
    exact absurd hcnt (ne_of_lt (h3 k' (by omega) hk'))

/-- Witness for the amended C2 theorem at the concrete tied matrix. -/
theorem spicker_rowSelect_amended_witness :
    0 ≤ (selectMaxRow (mkRat 1 2) [[0, 9], [9, 0]]).1 ∧
    (selectMaxRow (mkRat 1 2) [[0, 9], [9, 0]]).1.toNat < 2 ∧
    nbCountRow (mkRat 1 2)
        ([[0, 9], [9, 0]].getD (selectMaxRow (mkRat 1 2) [[0, 9], [9, 0]]).1.toNat []) =
      (selectMaxRow (mkRat 1 2) [[0, 9], [9, 0]]).2 ∧
    (∀ k, k < 2 →
      nbCountRow (mkRat 1 2) ([[0, 9], [9, 0]].getD k []) ≤
        (selectMaxRow (mkRat 1 2) [[0, 9], [9, 0]]).2) ∧
    (∀ k, k < 2 →
      nbCountRow (mkRat 1 2) ([[0, 9], [9, 0]].getD k []) =
        (selectMaxRow (mkRat 1 2) [[0, 9], [9, 0]]).2 →
      k ≤ (selectMaxRow (mkRat 1 2) [[0, 9], [9, 0]]).1.toNat) := by
  simpa using spicker_rowSelect_amended (mkRat 1 2) [[0, 9], [9, 0]] (by decide)

/-! ## Claim C10: k-medoid convergence is a fixed point -/

theorem closestAux_some_range (norm : List (List ℚ)) (i : Nat) :
    ∀ (ms : List Nat) (k best : Nat) (b : ℚ),
      closestAux norm i ms k best (some b) = best ∨
      (k ≤ closestAux norm i ms k best (some b) ∧
        closestAux norm i ms k best (some b) < k + ms.length) := by
  intro ms
  induction ms with
  | nil => intro k best b; exact Or.inl rfl
  | cons m rest ih =>
    intro k best b
    have hstep : closestAux norm i (m :: rest) k best (some b) =
        if mget norm i m < b then closestAux norm i rest (k + 1) k (some (mget norm i m))
        else closestAux norm i rest (k + 1) best (some b) := rfl
    rw [hstep]
    by_cases hd : mget norm i m < b
    · rw [if_pos hd]
      rcases ih (k + 1) k (mget norm i m) with h | ⟨h1, h2⟩
      · right; rw [h]; simp
      · right; constructor <;> [omega; (simp only [List.length_cons]; omega)]
    · rw [if_neg hd]
      rcases ih (k + 1) best b with h | ⟨h1, h2⟩
      · left; exact h
      · right; constructor <;> [omega; (simp only [List.length_cons]; omega)]

theorem closestMeanIdx_lt (norm : List (List ℚ)) (means : List Nat) (i : Nat)
    (h : means ≠ []) : closestMeanIdx norm means i < means.length := by
  cases means with
  | nil => exact absurd rfl h
  | cons m rest =>
    have : closestMeanIdx norm (m :: rest) i =
        closestAux norm i rest 1 0 (some (mget norm i m)) := rfl
    rw [this]
    rcases closestAux_some_range norm i rest 1 0 (mget norm i m) with h' | ⟨h1, h2⟩ <;>
      simp only [List.length_cons] <;> omega

theorem foldl_assign_length (cIdx : Nat → Nat) (L : List Nat) :
    ∀ init : List (List Nat),
      (L.foldl (fun km i => listModify (fun l => l ++ [i]) (cIdx i) km) init).length =
        init.length := by
  induction L with
  | nil => intro init; rfl
  | cons i L' ih =>
    intro init
    rw [List.foldl_cons, ih, length_listModify]

theorem foldl_assign_getD (cIdx : Nat → Nat) (L : List Nat) :
    ∀ (init : List (List Nat)) (c : Nat), (∀ i ∈ L, cIdx i < init.length) →
      (L.foldl (fun km i => listModify (fun l => l ++ [i]) (cIdx i) km) init).getD c [] =
        init.getD c [] ++ L.filter (fun i => cIdx i = c) := by
  induction L with
  | nil => intro init c _; simp
  | cons i L' ih =>
    intro init c hb
    rw [List.foldl_cons, ih _ c (fun j hj => by
      rw [length_listModify]; exact hb j (List.mem_cons_of_mem _ hj))]
    rw [getD_listModify]
    by_cases hc : cIdx i = c
    · rw [if_pos ⟨hc.symm, hb i (List.mem_cons_self i L')⟩,
        List.filter_cons_of_pos (by simpa using hc), List.append_assoc]
      rfl
    · rw [if_neg (fun hh => hc hh.1.symm), List.filter_cons_of_neg (by simpa using hc)]

theorem getD_map_nil {α β : Type} (xs : List α) (c : Nat) :
    (xs.map (fun _ => ([] : List β))).getD c [] = [] := by
  rw [List.getD_eq_getElem?_getD, List.getElem?_map]
  cases xs[c]? <;> rfl

theorem assignAll_length (norm : List (List ℚ)) (means : List Nat) (N : Nat) :
    (assignAll norm means N).length = means.length := by
  unfold assignAll
  rw [foldl_assign_length, List.length_map]

theorem assignAll_getD (norm : List (List ℚ)) (means : List Nat) (N : Nat)
    (c : Nat) (h : means ≠ []) :
    (assignAll norm means N).getD c [] =
      (List.range N).filter (fun i => closestMeanIdx norm means i = c) := by
  unfold assignAll
  rw [foldl_assign_getD _ _ _ _ (fun i _ => by
    rw [List.length_map]; exact closestMeanIdx_lt norm means i h)]
  rw [getD_map_nil, List.nil_append]

/-- C10: at a convergence state of `doKMeans` (the member lists are the
assignment induced by the current medoids and the medoid update changes
no medoid), one additional assignment-plus-update cycle is the identity,
and the member lists partition the element set 0..N-1: each element lies
in exactly one list, every list is duplicate free and contains only
elements below N. -/
theorem kmeans_fixed_point (norm : List (List ℚ)) (N : Nat)
    (means : List Nat) (members : List (List Nat))
    (hk : means ≠ [])
    (hassign : members = assignAll norm means N)
    (hmed : members.map (calcMean norm) = means) :
    kmeansCycle norm N (means, members) = (means, members) ∧
    (∀ i, i < N → ∃! c, c < members.length ∧ i ∈ members.getD c []) ∧
    (∀ c, (members.getD c []).Nodup ∧ ∀ i ∈ members.getD c [], i < N) := by
  have hlen : members.length = means.length := by
    rw [hassign, assignAll_length]
  have hget : ∀ c, members.getD c [] =
      (List.range N).filter (fun i => closestMeanIdx norm means i = c) := by
    intro c
    rw [hassign, assignAll_getD norm means N c hk]
  have hmem : ∀ i c, i ∈ members.getD c [] ↔
      (i < N ∧ closestMeanIdx norm means i = c) := by
    intro i c
    rw [hget c]
    simp [List.mem_filter]
  refine ⟨?_, ?_, ?_⟩
  · show (members.map (calcMean norm),
      assignAll norm (members.map (calcMean norm)) N) = (means, members)
    rw [hmed, ← hassign]
  · intro i hi
    refine ⟨closestMeanIdx norm means i, ⟨?_, ?_⟩, ?_⟩
    · rw [hlen]; exact closestMeanIdx_lt norm means i hk
    · exact (hmem i _).mpr ⟨hi, rfl⟩
    · rintro c ⟨_, hc⟩
      exact ((hmem i c).mp hc).2.symm
  · intro c
    rw [hget c]
    exact ⟨List.Nodup.filter _ (List.nodup_range N),
      fun i hi => by simpa using (List.mem_filter.mp hi).1⟩

/-- Witness for C10 at the one-element, one-medoid instance. -/
theorem kmeans_fixed_point_witness :
    kmeansCycle [[0]] 1 ([0], [[0]]) = ([0], [[0]]) :=
  (kmeans_fixed_point [[0]] 1 [0] [[0]] (by decide) (by decide) (by decide)).1

/-! ## The cluster-membership invariant -/

/-- The cluster stored at position `k` of the master list. -/
def clAt (st : ClState) (k : Nat) : Cluster := st.clusters.getD k noCluster

/-- The invariant maintained by initialization and every merge: node
back references point at in-range, active clusters that contain them,
each cluster's id equals its list position, active clusters' member
lists are in range, duplicate free, nonempty, and point back. -/
structure Inv (N : Nat) (st : ClState) : Prop where
  ncLen : st.nodeCluster.length = N
  ids : ∀ k, k < st.clusters.length → (clAt st k).id = k
  memBound : ∀ k, k < st.clusters.length → (clAt st k).active = true →
    ∀ m ∈ (clAt st k).members, m < N
  memPtr : ∀ k, k < st.clusters.length → (clAt st k).active = true →
    ∀ m ∈ (clAt st k).members, clusterOf st m = k
  ptrLt : ∀ n, n < N → clusterOf st n < st.clusters.length
  ptrActive : ∀ n, n < N → (clAt st (clusterOf st n)).active = true
  ptrMem : ∀ n, n < N → n ∈ (clAt st (clusterOf st n)).members
  nodupMem : ∀ k, k < st.clusters.length → (clAt st k).members.Nodup
  activeNe : ∀ k, k < st.clusters.length → (clAt st k).active = true →
    (clAt st k).members ≠ []

theorem length_setNodeClusters (ms : List Nat) :
    ∀ (nc : List Nat) (cid : Nat), (setNodeClusters nc ms cid).length = nc.length := by
  induction ms with
  | nil => intro nc cid; rfl
  | cons x ms' ih =>
    intro nc cid
    show (setNodeClusters (nc.set x cid) ms' cid).length = _
    rw [ih, List.length_set]

theorem getD_setNodeClusters (ms : List Nat) :
    ∀ (nc : List Nat) (cid m : Nat),
      (setNodeClusters nc ms cid).getD m 0 =
        if m ∈ ms ∧ m < nc.length then cid else nc.getD m 0 := by
  induction ms with
  | nil => intro nc cid m; simp [setNodeClusters]
  | cons x ms' ih =>
    intro nc cid m
    show (setNodeClusters (nc.set x cid) ms' cid).getD m 0 = _
    rw [ih, List.length_set, getD_set']
    simp only [List.mem_cons]
    by_cases h2 : m < nc.length
    · by_cases h1 : m ∈ ms'
      · rw [if_pos ⟨h1, h2⟩, if_pos ⟨Or.inr h1, h2⟩]
      · rw [if_neg (fun hc => h1 hc.1)]
        by_cases h3 : m = x
        · rw [if_pos ⟨h3, h3 ▸ h2⟩, if_pos ⟨Or.inl h3, h2⟩]
        · rw [if_neg (fun hc => h3 hc.1),
            if_neg (show ¬((m = x ∨ m ∈ ms') ∧ m < nc.length) from
              fun hc => hc.1.elim h3 h1)]
    · rw [if_neg (show ¬(m ∈ ms' ∧ m < nc.length) from fun hc => h2 hc.2),
        if_neg (show ¬(m = x ∧ x < nc.length) from fun hc => h2 (hc.1.symm ▸ hc.2)),
        if_neg (show ¬((m = x ∨ m ∈ ms') ∧ m < nc.length) from fun hc => h2 hc.2)]

/-- Shorthand for the result of one `setStatus()` toggle. -/
def toggled (c : Cluster) : Cluster := { c with active := !c.active }

theorem clAt_toggle (cs : List Cluster) (j k : Nat) :
    (toggleActive cs j).getD k noCluster =
      if k = j ∧ j < cs.length then toggled (cs.getD k noCluster)
      else cs.getD k noCluster := by
  unfold toggleActive toggled
  rw [getD_listModify]

theorem length_toggle (cs : List Cluster) (j : Nat) :
    (toggleActive cs j).length = cs.length := by
  unfold toggleActive
  rw [length_listModify]

theorem clusters_length_merge (st : ClState) (ca cb n : Nat) (d : ℚ) :
    (mergeClusters st ca cb n d).clusters.length = st.clusters.length + 1 := by
  show (toggleActive (toggleActive st.clusters ca) cb ++ _).length = _
  rw [List.length_append, length_toggle, length_toggle]
  rfl

theorem clusterOf_merge (st : ClState) (ca cb n : Nat) (d : ℚ) (m : Nat) :
    clusterOf (mergeClusters st ca cb n d) m =
      if m ∈ membersOf st ca ++ membersOf st cb ∧ m < st.nodeCluster.length then n
      else clusterOf st m := by
  show (setNodeClusters st.nodeCluster _ n).getD m 0 = _
  rw [getD_setNodeClusters]
  rfl

theorem clAt_out (st : ClState) (k : Nat) (h : st.clusters.length ≤ k) :
    clAt st k = noCluster := by
  unfold clAt
  rw [List.getD_eq_getElem?_getD, List.getElem?_eq_none h]
  rfl

theorem clAt_merge (st : ClState) (ca cb : Nat) (d : ℚ) (k : Nat)
    (hcb : cb < st.clusters.length) (hne : ca ≠ cb) :
    clAt (mergeClusters st ca cb st.clusters.length d) k =
      if k = st.clusters.length then
        ⟨st.clusters.length, membersOf st ca ++ membersOf st cb, d, true⟩
      else if k = ca then
        if ca < st.clusters.length then toggled (clAt st ca) else clAt st ca
      else if k = cb then toggled (clAt st cb)
      else clAt st k := by
  have hnew : clAt (mergeClusters st ca cb st.clusters.length d) k =
      (toggleActive (toggleActive st.clusters ca) cb ++
        ([⟨st.clusters.length, membersOf st ca ++ membersOf st cb, d, true⟩] :
          List Cluster)).getD k noCluster := rfl
  have hlen2 : (toggleActive (toggleActive st.clusters ca) cb).length =
      st.clusters.length := by rw [length_toggle, length_toggle]
  by_cases hk : k < st.clusters.length
  · rw [hnew, getD_append_low _ _ _ _ (by rw [hlen2]; exact hk)]
    have ht2 : (toggleActive (toggleActive st.clusters ca) cb).getD k noCluster =
        if k = cb ∧ cb < (toggleActive st.clusters ca).length then
          toggled ((toggleActive st.clusters ca).getD k noCluster)
        else (toggleActive st.clusters ca).getD k noCluster := clAt_toggle _ _ _
    rw [ht2, clAt_toggle, length_toggle]
    rw [if_neg (show ¬ k = st.clusters.length by omega)]
    by_cases h1 : k = cb
    · rw [if_pos ⟨h1, hcb⟩, if_neg (show ¬(k = ca ∧ ca < st.clusters.length) from
        fun hc => hne (hc.1.symm.trans h1)),
        if_neg (show ¬ k = ca from fun hc => hne (hc.symm.trans h1)), if_pos h1, h1]
      rfl
    · rw [if_neg (show ¬(k = cb ∧ cb < st.clusters.length) from fun hc => h1 hc.1)]
      by_cases h2 : k = ca
      · rw [if_pos ⟨h2, h2 ▸ hk⟩, if_pos h2, if_pos (h2 ▸ hk), h2]
        rfl
      · rw [if_neg (show ¬(k = ca ∧ ca < st.clusters.length) from fun hc => h2 hc.1),
          if_neg h2, if_neg h1]
        rfl
  · by_cases hkL : k = st.clusters.length
    · rw [hnew, if_pos hkL, getD_append_high _ _ _ _ (by rw [hlen2]; omega), hlen2, hkL]
      simp
    · have hLk : st.clusters.length ≤ k := by omega
      have hsing : (([⟨st.clusters.length, membersOf st ca ++ membersOf st cb, d, true⟩] :
          List Cluster)).getD (k - st.clusters.length) noCluster = noCluster := by
        rw [List.getD_eq_getElem?_getD, List.getElem?_eq_none (by simp; omega)]
        rfl
      rw [hnew, getD_append_high _ _ _ _ (by rw [hlen2]; omega), hlen2, hsing,
        if_neg hkL]
      by_cases h2 : k = ca
      · rw [if_pos h2, if_neg (show ¬ ca < st.clusters.length by omega),
          clAt_out st ca (by omega)]
      · rw [if_neg h2, if_neg (show ¬ k = cb by omega), clAt_out st k hLk]

theorem clAt_setMaxDist (st : ClState) (j : Nat) (d : ℚ) (k : Nat) :
    clAt (setMaxDist st j d) k =
      if k = j ∧ j < st.clusters.length then
        { clAt st k with maxDistance := d }
      else clAt st k := by
  show (listModify _ j st.clusters).getD k noCluster = _
  rw [getD_listModify]
  rfl

theorem clusterOf_setMaxDist (st : ClState) (j : Nat) (d : ℚ) (m : Nat) :
    clusterOf (setMaxDist st j d) m = clusterOf st m := rfl

/-- The freshly initialized state satisfies the invariant. -/
theorem initState_inv (N : Nat) : Inv N (initState N) := by
  have hnc : ∀ n, n < N → clusterOf (initState N) n = n := by
    intro n hn
    exact getD_tab (fun i => i) hn 0
  have hcl : ∀ k, k < N → clAt (initState N) k = ⟨k, [k], 0, true⟩ := by
    intro k hk
    exact getD_tab (fun i => (⟨i, [i], 0, true⟩ : Cluster)) hk noCluster
  have hlen : (initState N).clusters.length = N := by
    show (tab _ N).length = N
    simp [tab]
  refine ⟨by show (tab _ N).length = N; simp [tab], ?_, ?_, ?_, ?_, ?_, ?_, ?_, ?_⟩
  · intro k hk; rw [hcl k (hlen ▸ hk)]
  · intro k hk _ m hm
    rw [hcl k (hlen ▸ hk)] at hm
    simpa using (by simpa using hm : m = k) ▸ (hlen ▸ hk)
  · intro k hk _ m hm
    rw [hcl k (hlen ▸ hk)] at hm
    rw [(by simpa using hm : m = k), hnc k (hlen ▸ hk)]
  · intro n hn; rw [hnc n hn, hlen]; exact hn
  · intro n hn; rw [hnc n hn, hcl n hn]
  · intro n hn; rw [hnc n hn, hcl n hn]; simp
  · intro k hk; rw [hcl k (hlen ▸ hk)]; simp
  · intro k hk _; rw [hcl k (hlen ▸ hk)]; simp

/-- Merging two distinct clusters of two in-range nodes, with the next
cluster id, preserves the invariant — this is exactly how every policy
invokes `mergeClusters`. -/
theorem mergeClusters_inv {N : Nat} {st : ClState} (hInv : Inv N st)
    {a b : Nat} (ha : a < N) (hb : b < N)
    (hne : clusterOf st a ≠ clusterOf st b) (d : ℚ) :
    Inv N (mergeClusters st (clusterOf st a) (clusterOf st b)
      st.clusters.length d) := by
  set ca := clusterOf st a with hcaDef
  set cb := clusterOf st b with hcbDef
  have hcaL : ca < st.clusters.length := hInv.ptrLt a ha
  have hcbL : cb < st.clusters.length := hInv.ptrLt b hb
  have hactA : (clAt st ca).active = true := hInv.ptrActive a ha
  have hactB : (clAt st cb).active = true := hInv.ptrActive b hb
  have hmA : ∀ m ∈ (clAt st ca).members, m < N := hInv.memBound ca hcaL hactA
  have hmB : ∀ m ∈ (clAt st cb).members, m < N := hInv.memBound cb hcbL hactB
  have hpA : ∀ m ∈ (clAt st ca).members, clusterOf st m = ca :=
    hInv.memPtr ca hcaL hactA
  have hpB : ∀ m ∈ (clAt st cb).members, clusterOf st m = cb :=
    hInv.memPtr cb hcbL hactB
  have hmof : ∀ k, membersOf st k = (clAt st k).members := fun _ => rfl
  have hmsN : ∀ m ∈ membersOf st ca ++ membersOf st cb, m < N := by
    intro m hm
    rcases List.mem_append.mp hm with h | h
    · exact hmA m (by rw [← hmof]; exact h)
    · exact hmB m (by rw [← hmof]; exact h)
  have hmsPtr : ∀ m ∈ membersOf st ca ++ membersOf st cb,
      clusterOf st m = ca ∨ clusterOf st m = cb := by
    intro m hm
    rcases List.mem_append.mp hm with h | h
    · exact Or.inl (hpA m h)
    · exact Or.inr (hpB m h)
  have hncof : ∀ m, clusterOf (mergeClusters st ca cb st.clusters.length d) m =
      if m ∈ membersOf st ca ++ membersOf st cb then st.clusters.length
      else clusterOf st m := by
    intro m
    rw [clusterOf_merge]
    by_cases hm : m ∈ membersOf st ca ++ membersOf st cb
    · rw [if_pos ⟨hm, by rw [hInv.ncLen]; exact hmsN m hm⟩, if_pos hm]
    · rw [if_neg (fun hc => hm hc.1), if_neg hm]
  have hE : ∀ k, clAt (mergeClusters st ca cb st.clusters.length d) k =
      if k = st.clusters.length then
        ⟨st.clusters.length, membersOf st ca ++ membersOf st cb, d, true⟩
      else if k = ca then toggled (clAt st ca)
      else if k = cb then toggled (clAt st cb)
      else clAt st k := by
    intro k
    rw [clAt_merge st ca cb d k hcbL hne, if_pos hcaL]
  have hLen : (mergeClusters st ca cb st.clusters.length d).clusters.length =
      st.clusters.length + 1 := clusters_length_merge st ca cb _ d
  have hmemIff : ∀ m, m < N → (m ∈ membersOf st ca ++ membersOf st cb ↔
      clusterOf st m = ca ∨ clusterOf st m = cb) := by
    intro m hm
    refine ⟨hmsPtr m, ?_⟩
    rintro (h | h)
    · exact List.mem_append.mpr (Or.inl (by rw [hmof, ← h]; exact hInv.ptrMem m hm))
    · exact List.mem_append.mpr (Or.inr (by rw [hmof, ← h]; exact hInv.ptrMem m hm))
  refine ⟨?_, ?_, ?_, ?_, ?_, ?_, ?_, ?_, ?_⟩
  · show (setNodeClusters st.nodeCluster _ _).length = N
    rw [length_setNodeClusters, hInv.ncLen]
  · intro k hk
    rw [hLen] at hk
    rw [hE k]
    split_ifs with h1 h2 h3
    · rw [h1]
    · rw [h2]; simpa [toggled] using hInv.ids ca hcaL
    · rw [h3]; simpa [toggled] using hInv.ids cb hcbL
    · exact hInv.ids k (by omega)
  · intro k hk hact m hm
    rw [hLen] at hk
    rw [hE k] at hact hm
    split_ifs at hact hm with h1 h2 h3
    · exact hmsN m hm
    · rw [show (toggled (clAt st ca)).active = !(clAt st ca).active from rfl,
        hactA] at hact
      cases hact
    · rw [show (toggled (clAt st cb)).active = !(clAt st cb).active from rfl,
        hactB] at hact
      cases hact
    · exact hInv.memBound k (by omega) hact m hm
  · intro k hk hact m hm
    rw [hLen] at hk
    rw [hE k] at hact hm
    rw [hncof m]
    split_ifs at hact hm with h1 h2 h3
    · rw [if_pos hm, h1]
    · rw [show (toggled (clAt st ca)).active = !(clAt st ca).active from rfl,
        hactA] at hact
      cases hact
    · rw [show (toggled (clAt st cb)).active = !(clAt st cb).active from rfl,
        hactB] at hact
      cases hact
    · have hmk : clusterOf st m = k := hInv.memPtr k (by omega) hact m hm
      rw [if_neg (fun hin => (hmsPtr m hin).elim (fun hc => h2 (hmk.symm.trans hc))
        (fun hc => h3 (hmk.symm.trans hc))), hmk]
  · intro n hn
    rw [hLen, hncof n]
    split_ifs with h1
    · omega
    · have := hInv.ptrLt n hn
      omega
  · intro n hn
    rw [hncof n]
    split_ifs with h1
    · rw [hE st.clusters.length, if_pos rfl]
    · rw [hE (clusterOf st n)]
      have hlt := hInv.ptrLt n hn
      rw [if_neg (by omega),
        if_neg (fun hc => h1 ((hmemIff n hn).mpr (Or.inl hc))),
        if_neg (fun hc => h1 ((hmemIff n hn).mpr (Or.inr hc)))]
      exact hInv.ptrActive n hn
  · intro n hn
    rw [hncof n]
    split_ifs with h1
    · rw [hE st.clusters.length, if_pos rfl]
      exact h1
    · rw [hE (clusterOf st n)]
      have hlt := hInv.ptrLt n hn
      rw [if_neg (by omega),
        if_neg (fun hc => h1 ((hmemIff n hn).mpr (Or.inl hc))),
        if_neg (fun hc => h1 ((hmemIff n hn).mpr (Or.inr hc)))]
      exact hInv.ptrMem n hn
  · intro k hk
    rw [hLen] at hk
    rw [hE k]
    split_ifs with h1 h2 h3
    · show ((clAt st ca).members ++ (clAt st cb).members).Nodup
      rw [List.nodup_append]
      exact ⟨hInv.nodupMem ca hcaL, hInv.nodupMem cb hcbL,
        fun m hma hmb => hne ((hpA m hma).symm.trans (hpB m hmb))⟩
    · simpa [toggled] using hInv.nodupMem ca hcaL
    · simpa [toggled] using hInv.nodupMem cb hcbL
    · exact hInv.nodupMem k (by omega)
  · intro k hk hact
    rw [hLen] at hk
    rw [hE k] at hact ⊢
    split_ifs at hact ⊢ with h1 h2 h3
    · show (clAt st ca).members ++ (clAt st cb).members ≠ []
      have := hInv.activeNe ca hcaL hactA
      simp only [ne_eq, List.append_eq_nil]
      tauto
    · rw [show (toggled (clAt st ca)).active = !(clAt st ca).active from rfl,
        hactA] at hact
      cases hact
    · rw [show (toggled (clAt st cb)).active = !(clAt st cb).active from rfl,
        hactB] at hact
      cases hact
    · exact hInv.activeNe k (by omega) hact

/-- `setMaxDistance` touches only the stored distance, so the invariant
survives it. -/
theorem setMaxDist_inv {N : Nat} {st : ClState} (hInv : Inv N st) (j : Nat) (d : ℚ) :
    Inv N (setMaxDist st j d) := by
  have hE : ∀ k, (clAt (setMaxDist st j d) k).members = (clAt st k).members ∧
      (clAt (setMaxDist st j d) k).id = (clAt st k).id ∧
      (clAt (setMaxDist st j d) k).active = (clAt st k).active := by
    intro k
    rw [clAt_setMaxDist]
    split_ifs <;> exact ⟨rfl, rfl, rfl⟩
  have hL : (setMaxDist st j d).clusters.length = st.clusters.length := by
    show (listModify _ _ _).length = _
    rw [length_listModify]
  have hcof : ∀ m, clusterOf (setMaxDist st j d) m = clusterOf st m := fun _ => rfl
  refine ⟨hInv.ncLen, ?_, ?_, ?_, ?_, ?_, ?_, ?_, ?_⟩
  · intro k hk; rw [(hE k).2.1]; exact hInv.ids k (hL ▸ hk)
  · intro k hk hact m hm
    rw [(hE k).1] at hm
    rw [(hE k).2.2] at hact
    exact hInv.memBound k (hL ▸ hk) hact m hm
  · intro k hk hact m hm
    rw [(hE k).1] at hm
    rw [(hE k).2.2] at hact
    rw [hcof m]
    exact hInv.memPtr k (hL ▸ hk) hact m hm
  · intro n hn; rw [hcof n, hL]; exact hInv.ptrLt n hn
  · intro n hn; rw [hcof n, (hE _).2.2]; exact hInv.ptrActive n hn
  · intro n hn; rw [hcof n, (hE _).1]; exact hInv.ptrMem n hn
  · intro k hk; rw [(hE k).1]; exact hInv.nodupMem k (hL ▸ hk)
  · intro k hk hact
    rw [(hE k).2.2] at hact
    rw [(hE k).1]
    exact hInv.activeNe k (hL ▸ hk) hact

theorem merge_members_lt {N : Nat} {st : ClState} (hInv : Inv N st) {a b : Nat}
    (ha : a < N) (hb : b < N) :
    ∀ x ∈ membersOf st (clusterOf st a) ++ membersOf st (clusterOf st b), x < N := by
  intro x hx
  rcases List.mem_append.mp hx with h | h
  · exact hInv.memBound _ (hInv.ptrLt a ha) (hInv.ptrActive a ha) x h
  · exact hInv.memBound _ (hInv.ptrLt b hb) (hInv.ptrActive b hb) x h

theorem mem_merge_members {N : Nat} {st : ClState} (hInv : Inv N st) {a b : Nat}
    (ha : a < N) (hb : b < N) {m : Nat} (hm : m < N) :
    m ∈ membersOf st (clusterOf st a) ++ membersOf st (clusterOf st b) ↔
      clusterOf st m = clusterOf st a ∨ clusterOf st m = clusterOf st b := by
  constructor
  · intro h
    rcases List.mem_append.mp h with h | h
    · exact Or.inl (hInv.memPtr _ (hInv.ptrLt a ha) (hInv.ptrActive a ha) m h)
    · exact Or.inr (hInv.memPtr _ (hInv.ptrLt b hb) (hInv.ptrActive b hb) m h)
  · rintro (h | h)
    · refine List.mem_append.mpr (Or.inl ?_)
      show m ∈ (clAt st (clusterOf st a)).members
      rw [← h]
      exact hInv.ptrMem m hm
    · refine List.mem_append.mpr (Or.inr ?_)
      show m ∈ (clAt st (clusterOf st b)).members
      rw [← h]
      exact hInv.ptrMem m hm

theorem clusterOf_merge_mem {N : Nat} {st : ClState} (hInv : Inv N st)
    (ca cb : Nat) (d : ℚ) (m : Nat)
    (hml : ∀ x ∈ membersOf st ca ++ membersOf st cb, x < N) :
    clusterOf (mergeClusters st ca cb st.clusters.length d) m =
      if m ∈ membersOf st ca ++ membersOf st cb then st.clusters.length
      else clusterOf st m := by
  rw [clusterOf_merge]
  by_cases hm : m ∈ membersOf st ca ++ membersOf st cb
  · rw [if_pos ⟨hm, by rw [hInv.ncLen]; exact hml m hm⟩, if_pos hm]
  · rw [if_neg (fun hc => hm hc.1), if_neg hm]

theorem hStep_inv {N : Nat} {st : ClState} (hInv : Inv N st) {l : Link}
    (hA : l.nodeA < N) (hB : l.nodeB < N) : Inv N (hStep st l) := by
  unfold hStep
  split_ifs with h
  · exact mergeClusters_inv hInv hA hB h l.distance
  · exact hInv

theorem hcStep_inv {N : Nat} {st : ClState} (hInv : Inv N st) (cutoff : ℚ) {l : Link}
    (hA : l.nodeA < N) (hB : l.nodeB < N) : Inv N (hcStep cutoff st l) := by
  unfold hcStep
  split_ifs with h1 h2 h3
  · exact mergeClusters_inv hInv hA hB h2 l.distance
  · exact setMaxDist_inv hInv _ _
  · exact setMaxDist_inv hInv _ _
  · exact hInv

theorem hStep_sameCluster {N : Nat} {st : ClState} (hInv : Inv N st) {l : Link}
    (hA : l.nodeA < N) (hB : l.nodeB < N) {i j : Nat} (hi : i < N) (hj : j < N)
    (hsame : clusterOf st i = clusterOf st j) :
    clusterOf (hStep st l) i = clusterOf (hStep st l) j := by
  unfold hStep
  split_ifs with h
  · have hbnd := merge_members_lt hInv hA hB
    rw [clusterOf_merge_mem hInv _ _ _ i hbnd, clusterOf_merge_mem hInv _ _ _ j hbnd]
    by_cases him : i ∈ membersOf st (clusterOf st l.nodeA) ++
        membersOf st (clusterOf st l.nodeB)
    · have hjm : j ∈ membersOf st (clusterOf st l.nodeA) ++
          membersOf st (clusterOf st l.nodeB) :=
        (mem_merge_members hInv hA hB hj).mpr
          (by rw [← hsame]; exact (mem_merge_members hInv hA hB hi).mp him)
      rw [if_pos him, if_pos hjm]
    · have hjm : ¬ j ∈ membersOf st (clusterOf st l.nodeA) ++
          membersOf st (clusterOf st l.nodeB) := fun hjm =>
        him ((mem_merge_members hInv hA hB hi).mpr
          (by rw [hsame]; exact (mem_merge_members hInv hA hB hj).mp hjm))
      rw [if_neg him, if_neg hjm, hsame]
  · exact hsame

theorem hStep_joins {N : Nat} {st : ClState} (hInv : Inv N st) {l : Link}
    (hA : l.nodeA < N) (hB : l.nodeB < N) :
    clusterOf (hStep st l) l.nodeA = clusterOf (hStep st l) l.nodeB := by
  unfold hStep
  split_ifs with h
  · have hbnd := merge_members_lt hInv hA hB
    rw [clusterOf_merge_mem hInv _ _ _ _ hbnd, clusterOf_merge_mem hInv _ _ _ _ hbnd,
      if_pos ((mem_merge_members hInv hA hB hA).mpr (Or.inl rfl)),
      if_pos ((mem_merge_members hInv hA hB hB).mpr (Or.inr rfl))]
  · exact not_ne_iff.mp h

theorem doHierarchical_inv {N : Nat} (links : List Link) :
    ∀ st : ClState, Inv N st → (∀ l ∈ links, l.nodeA < N ∧ l.nodeB < N) →
      Inv N (doHierarchical links st) := by
  induction links with
  | nil => intro st h _; exact h
  | cons l ls ih =>
    intro st h hb
    exact ih _ (hStep_inv h (hb l (List.mem_cons_self l ls)).1
      (hb l (List.mem_cons_self l ls)).2)
      (fun l' hl' => hb l' (List.mem_cons_of_mem _ hl'))

theorem doHierarchical_same {N : Nat} (links : List Link) :
    ∀ st : ClState, Inv N st → (∀ l ∈ links, l.nodeA < N ∧ l.nodeB < N) →
    ∀ i j, i < N → j < N → clusterOf st i = clusterOf st j →
      clusterOf (doHierarchical links st) i = clusterOf (doHierarchical links st) j := by
  induction links with
  | nil => intro st _ _ i j _ _ h; exact h
  | cons l ls ih =>
    intro st hInv hb i j hi hj hsame
    exact ih _ (hStep_inv hInv (hb l (List.mem_cons_self l ls)).1
        (hb l (List.mem_cons_self l ls)).2)
      (fun l' hl' => hb l' (List.mem_cons_of_mem _ hl')) i j hi hj
      (hStep_sameCluster hInv (hb l (List.mem_cons_self l ls)).1
        (hb l (List.mem_cons_self l ls)).2 hi hj hsame)

theorem doHierarchical_joins {N : Nat} (links : List Link) :
    ∀ st : ClState, Inv N st → (∀ l ∈ links, l.nodeA < N ∧ l.nodeB < N) →
    ∀ l ∈ links, clusterOf (doHierarchical links st) l.nodeA =
      clusterOf (doHierarchical links st) l.nodeB := by
  induction links with
  | nil => intro st _ _ l hl; cases hl
  | cons l0 ls ih =>
    intro st hInv hb l hl
    have hb0 := hb l0 (List.mem_cons_self l0 ls)
    have hInv' := hStep_inv hInv hb0.1 hb0.2
    have hb' := fun l' hl' => hb l' (List.mem_cons_of_mem _ hl')
    rcases List.mem_cons.mp hl with rfl | hl'
    · exact doHierarchical_same ls _ hInv' hb' _ _ hb0.1 hb0.2
        (hStep_joins hInv hb0.1 hb0.2)
    · exact ih _ hInv' hb' l hl'

theorem filter_active_singleton :
    ∀ (cs : List Cluster) (c0 : Nat), c0 < cs.length →
      (∀ k, k < cs.length → ((cs.getD k noCluster).active = true ↔ k = c0)) →
      cs.filter (fun c => c.active) = [cs.getD c0 noCluster] := by
  intro cs
  induction cs with
  | nil => intro c0 h0; simp at h0
  | cons c cs' ih =>
    intro c0 h0 hiff
    cases c0 with
    | zero =>
      have hc : c.active = true := (hiff 0 (by simp)).mpr rfl
      rw [List.filter_cons_of_pos (by simpa using hc), List.getD_cons_zero]
      have hrest : cs'.filter (fun c => c.active) = [] := by
        rw [List.filter_eq_nil_iff]
        intro x hx
        obtain ⟨k, hk, hxk⟩ := List.getElem_of_mem hx
        intro hact
        have hkk := (hiff (k + 1) (by simpa using Nat.succ_lt_succ hk)).mp
          (by
            rw [List.getD_cons_succ, List.getD_eq_getElem cs' noCluster hk, hxk]
            simpa using hact)
        omega
      rw [hrest]
    | succ j =>
      have hc : ¬ c.active = true := fun hact => by
        have := (hiff 0 (by simp)).mp (by simpa using hact)
        omega
      rw [List.filter_cons_of_neg (by simpa using hc), List.getD_cons_succ]
      refine ih j (by simpa using h0) ?_
      intro k hk
      have := hiff (k + 1) (by simpa using Nat.succ_lt_succ hk)
      rw [List.getD_cons_succ] at this
      constructor
      · intro h; have := this.mp h; omega
      · intro h; exact this.mpr (by omega)

/-- C6: unrestricted hierarchical clustering from the N singleton state,
over a link list containing a link for every unordered pair of distinct
elements below N, ends with exactly one active cluster, and that cluster
holds precisely the N elements (with no duplicates).  The run is a total
fold that consumes every link, so it terminates by construction. -/
theorem doHierarchical_single_cluster (N : Nat) (hN : 1 ≤ N) (links : List Link)
    (hb : ∀ l ∈ links, l.nodeA < N ∧ l.nodeB < N)
    (hc : ∀ i j, i < N → j < N → i ≠ j →
      ∃ l ∈ links, (l.nodeA = i ∧ l.nodeB = j) ∨ (l.nodeA = j ∧ l.nodeB = i)) :
    ((doHierarchical links (initState N)).clusters.filter (fun c => c.active)).length
      = 1 ∧
    ∃ k, k < (doHierarchical links (initState N)).clusters.length ∧
      (clAt (doHierarchical links (initState N)) k).active = true ∧
      (∀ i, i < N ↔ i ∈ (clAt (doHierarchical links (initState N)) k).members) ∧
      (clAt (doHierarchical links (initState N)) k).members.Nodup := by
  have hInv : Inv N (doHierarchical links (initState N)) :=
    doHierarchical_inv links _ (initState_inv N) hb
  have hallsame : ∀ i j, i < N → j < N →
      clusterOf (doHierarchical links (initState N)) i =
        clusterOf (doHierarchical links (initState N)) j := by
    intro i j hi hj
    by_cases hij : i = j
    · rw [hij]
    · obtain ⟨l, hl, hor⟩ := hc i j hi hj hij
      have hjoin := doHierarchical_joins links _ (initState_inv N) hb l hl
      rcases hor with ⟨h1, h2⟩ | ⟨h1, h2⟩
      · rw [← h1, ← h2]; exact hjoin
      · rw [← h1, ← h2]; exact hjoin.symm
  have h0 : 0 < N := hN
  set fin := doHierarchical links (initState N) with hfin
  set kstar := clusterOf fin 0 with hkstar
  have hkL : kstar < fin.clusters.length := hInv.ptrLt 0 h0
  have hkAct : (clAt fin kstar).active = true := hInv.ptrActive 0 h0
  have hiff : ∀ k, k < fin.clusters.length →
      ((clAt fin k).active = true ↔ k = kstar) := by
    intro k hk
    constructor
    · intro hact
      obtain ⟨m, hm⟩ := List.exists_mem_of_ne_nil _ (hInv.activeNe k hk hact)
      have hmN : m < N := hInv.memBound k hk hact m hm
      have h1 : clusterOf fin m = k := hInv.memPtr k hk hact m hm
      have h2 : clusterOf fin m = kstar := hallsame m 0 hmN h0
      rw [← h1, h2]
    · intro h; rw [h]; exact hkAct
  refine ⟨?_, kstar, hkL, hkAct, ?_, hInv.nodupMem kstar hkL⟩
  · rw [filter_active_singleton fin.clusters kstar hkL hiff]
    rfl
  · intro i
    constructor
    · intro hi
      have := hInv.ptrMem i hi
      rw [hallsame i 0 hi h0] at this
      exact this
    · intro hi
      exact hInv.memBound kstar hkL hkAct i hi

/-- Witness for C6 at N = 1 with no links. -/
theorem doHierarchical_single_cluster_witness :
    ((doHierarchical [] (initState 1)).clusters.filter (fun c => c.active)).length
      = 1 :=
  (doHierarchical_single_cluster 1 (by decide) []
    (fun l hl => absurd hl (List.not_mem_nil l))
    (fun i j hi hj hij => absurd (by omega) hij)).1

/-! ## Claim C3: incremental maxDistance vs full scan -/

/-- Largest distance among the links of `ls` whose two endpoints both lie
in `ms` (0 when there is none). -/
def maxLinkDist (ls : List Link) (ms : List Nat) : ℚ :=
  ((ls.filter (fun l => decide (l.nodeA ∈ ms) && decide (l.nodeB ∈ ms))).map
    (fun l => l.distance)).foldl max 0

/-- The diameter bookkeeping invariant: every active cluster's stored
`maxDistance` equals the largest distance among the already-processed
links internal to it. -/
def DInv (P : List Link) (st : ClState) : Prop :=
  ∀ k, k < st.clusters.length → (clAt st k).active = true →
    (clAt st k).maxDistance = maxLinkDist P (clAt st k).members

theorem maxLinkDist_append (P : List Link) (l : Link) (ms : List Nat) :
    maxLinkDist (P ++ [l]) ms =
      if l.nodeA ∈ ms ∧ l.nodeB ∈ ms then max (maxLinkDist P ms) l.distance
      else maxLinkDist P ms := by
  unfold maxLinkDist
  rw [List.filter_append]
  by_cases h : l.nodeA ∈ ms ∧ l.nodeB ∈ ms
  · rw [if_pos h]
    have hf : List.filter (fun l => decide (l.nodeA ∈ ms) && decide (l.nodeB ∈ ms))
        [l] = [l] := by
      simp [List.filter_singleton, h.1, h.2]
    rw [hf, List.map_append, List.foldl_append]
    rfl
  · rw [if_neg h]
    have hfalse : (decide (l.nodeA ∈ ms) && decide (l.nodeB ∈ ms)) = false := by
      by_cases hA : l.nodeA ∈ ms
      · by_cases hB : l.nodeB ∈ ms
        · exact absurd ⟨hA, hB⟩ h
        · simp [hB]
      · simp [hA]
    have hf : List.filter (fun l => decide (l.nodeA ∈ ms) && decide (l.nodeB ∈ ms))
        [l] = [] := by
      rw [List.filter_singleton, hfalse]
      rfl
    rw [hf, List.append_nil]

theorem maxLinkDist_le (P : List Link) (ms : List Nat) (x : ℚ) (h0 : 0 ≤ x)
    (hub : ∀ p ∈ P, p.distance ≤ x) : maxLinkDist P ms ≤ x := by
  apply foldl_max_le _ x 0 h0
  intro y hy
  obtain ⟨p, hp, rfl⟩ := List.mem_map.mp hy
  exact hub p (List.mem_of_mem_filter hp)

theorem maxLinkDist_append_in (P : List Link) (l : Link) (ms : List Nat)
    (hA : l.nodeA ∈ ms) (hB : l.nodeB ∈ ms) (h0 : 0 ≤ l.distance)
    (hub : ∀ p ∈ P, p.distance ≤ l.distance) :
    maxLinkDist (P ++ [l]) ms = l.distance := by
  rw [maxLinkDist_append, if_pos ⟨hA, hB⟩]
  exact max_eq_right (maxLinkDist_le P ms l.distance h0 hub)

theorem clAt_merge_all {N : Nat} {st : ClState} (hInv : Inv N st) {a b : Nat}
    (ha : a < N) (hb : b < N) (hne : clusterOf st a ≠ clusterOf st b)
    (d : ℚ) (k : Nat) :
    clAt (mergeClusters st (clusterOf st a) (clusterOf st b)
        st.clusters.length d) k =
      if k = st.clusters.length then
        ⟨st.clusters.length,
          membersOf st (clusterOf st a) ++ membersOf st (clusterOf st b), d, true⟩
      else if k = clusterOf st a then toggled (clAt st (clusterOf st a))
      else if k = clusterOf st b then toggled (clAt st (clusterOf st b))
      else clAt st k := by
  rw [clAt_merge st _ _ d k (hInv.ptrLt b hb) hne, if_pos (hInv.ptrLt a ha)]

/-- One `hcStep` on a link that dominates all processed distances carries
the diameter invariant forward. -/
theorem hcStep_dinv {N : Nat} {st : ClState} {P : List Link} (cutoff : ℚ)
    (hInv : Inv N st) (hD : DInv P st) {l : Link}
    (hA : l.nodeA < N) (hB : l.nodeB < N) (hd0 : 0 ≤ l.distance)
    (hPle : ∀ p ∈ P, p.distance ≤ l.distance) :
    DInv (P ++ [l]) (hcStep cutoff st l) := by
  have hmemA : l.nodeA ∈ (clAt st (clusterOf st l.nodeA)).members :=
    hInv.ptrMem l.nodeA hA
  have hmemB : l.nodeB ∈ (clAt st (clusterOf st l.nodeB)).members :=
    hInv.ptrMem l.nodeB hB
  have hnotint : ∀ k, k < st.clusters.length → (clAt st k).active = true →
      (clusterOf st l.nodeA ≠ k ∨ clusterOf st l.nodeB ≠ k) →
      maxLinkDist (P ++ [l]) (clAt st k).members = maxLinkDist P (clAt st k).members := by
    intro k hk hact hor
    rw [maxLinkDist_append, if_neg]
    rintro ⟨h1, h2⟩
    rcases hor with h | h
    · exact h (hInv.memPtr k hk hact _ h1)
    · exact h (hInv.memPtr k hk hact _ h2)
  unfold hcStep
  split_ifs with h1 h2 h3
  · -- merge of two distinct clusters
    intro k hk hact
    rw [clusters_length_merge] at hk
    rw [clAt_merge_all hInv hA hB h2 l.distance k] at hact ⊢
    split_ifs at hact ⊢ with e1 e2 e3
    · show l.distance = maxLinkDist (P ++ [l])
        (membersOf st (clusterOf st l.nodeA) ++ membersOf st (clusterOf st l.nodeB))
      exact (maxLinkDist_append_in _ _ _ (List.mem_append.mpr (Or.inl hmemA))
        (List.mem_append.mpr (Or.inr hmemB)) hd0 hPle).symm
    · rw [show (toggled (clAt st (clusterOf st l.nodeA))).active =
          !(clAt st (clusterOf st l.nodeA)).active from rfl,
        hInv.ptrActive l.nodeA hA] at hact
      cases hact
    · rw [show (toggled (clAt st (clusterOf st l.nodeB))).active =
          !(clAt st (clusterOf st l.nodeB)).active from rfl,
        hInv.ptrActive l.nodeB hB] at hact
      cases hact
    · rw [hnotint k (by omega) hact (Or.inl (fun hc => e2 hc.symm))]
      exact hD k (by omega) hact
  · -- record on the shared cluster, link below cutoff
    have hsame : clusterOf st l.nodeA = clusterOf st l.nodeB := not_ne_iff.mp h2
    intro k hk hact
    have hkL : k < st.clusters.length := by
      have : (setMaxDist st (clusterOf st l.nodeA) l.distance).clusters.length =
          st.clusters.length := by
        show (listModify _ _ _).length = _
        rw [length_listModify]
      omega
    rw [clAt_setMaxDist] at hact ⊢
    split_ifs at hact ⊢ with e1
    · show l.distance = maxLinkDist (P ++ [l]) (clAt st k).members
      exact (maxLinkDist_append_in _ _ _ (by rw [e1.1]; exact hmemA)
        (by rw [e1.1, hsame]; exact hmemB) hd0 hPle).symm
    · rw [hnotint k hkL hact
        (Or.inl (fun hc => e1 ⟨hc.symm, hc ▸ hInv.ptrLt l.nodeA hA⟩))]
      exact hD k hkL hact
  · -- record on the shared cluster, link at or above cutoff
    have hsame : clusterOf st l.nodeA = clusterOf st l.nodeB := h3
    intro k hk hact
    have hkL : k < st.clusters.length := by
      have : (setMaxDist st (clusterOf st l.nodeA) l.distance).clusters.length =
          st.clusters.length := by
        show (listModify _ _ _).length = _
        rw [length_listModify]
      omega
    rw [clAt_setMaxDist] at hact ⊢
    split_ifs at hact ⊢ with e1
    · show l.distance = maxLinkDist (P ++ [l]) (clAt st k).members
      exact (maxLinkDist_append_in _ _ _ (by rw [e1.1]; exact hmemA)
        (by rw [e1.1, hsame]; exact hmemB) hd0 hPle).symm
    · rw [hnotint k hkL hact
        (Or.inl (fun hc => e1 ⟨hc.symm, hc ▸ hInv.ptrLt l.nodeA hA⟩))]
      exact hD k hkL hact
  · -- link dropped: endpoints in different clusters, at or above cutoff
    intro k hk hact
    rw [hnotint k hk hact (by
      by_cases hc : clusterOf st l.nodeA = k
      · exact Or.inr (fun hc2 => h3 (hc.trans hc2.symm))
      · exact Or.inl hc)]
    exact hD k hk hact

theorem hcFold_dinv {N : Nat} (cutoff : ℚ) :
    ∀ (ls : List Link) (st : ClState) (P : List Link),
      Inv N st → DInv P st →
      (∀ l ∈ ls, l.nodeA < N ∧ l.nodeB < N ∧ 0 ≤ l.distance) →
      (∀ p ∈ P, ∀ l ∈ ls, p.distance ≤ l.distance) →
      ls.Pairwise (fun a b => a.distance ≤ b.distance) →
      DInv (P ++ ls) (ls.foldl (hcStep cutoff) st) ∧
        Inv N (ls.foldl (hcStep cutoff) st) := by
  intro ls
  induction ls with
  | nil =>
    intro st P hInv hD _ _ _
    simpa using ⟨hD, hInv⟩
  | cons l ls' ih =>
    intro st P hInv hD hb hcross hsort
    have hbl := hb l (List.mem_cons_self l ls')
    have hD1 : DInv (P ++ [l]) (hcStep cutoff st l) :=
      hcStep_dinv cutoff hInv hD hbl.1 hbl.2.1 hbl.2.2
        (fun p hp => hcross p hp l (List.mem_cons_self l ls'))
    have hInv1 : Inv N (hcStep cutoff st l) := hcStep_inv hInv cutoff hbl.1 hbl.2.1
    have hcross1 : ∀ p ∈ P ++ [l], ∀ l' ∈ ls', p.distance ≤ l'.distance := by
      intro p hp l' hl'
      rcases List.mem_append.mp hp with h | h
      · exact hcross p h l' (List.mem_cons_of_mem _ hl')
      · rw [List.mem_singleton.mp h]
        exact (List.pairwise_cons.mp hsort).1 l' hl'
    have := ih (hcStep cutoff st l) (P ++ [l]) hInv1 hD1
      (fun l' hl' => hb l' (List.mem_cons_of_mem _ hl')) hcross1
      (List.pairwise_cons.mp hsort).2
    rw [List.append_assoc] at this
    exact ⟨by simpa using this.1, this.2⟩

/-- The 3-element counterexample data: the link queue sorted ascending is
a permutation of the generated pair links of the matrix. -/
def norm3 : List (List ℚ) :=
  [[0, mkRat 3 10, mkRat 9 20],
   [mkRat 3 10, 0, mkRat 2 5],
   [mkRat 9 20, mkRat 2 5, 0]]

/-- The pop order of the 3-element queue. -/
def links3 : List Link :=
  [⟨0, 1, mkRat 3 10⟩, ⟨1, 2, mkRat 2 5⟩, ⟨0, 2, mkRat 9 20⟩]

/-- C3 counterexample: with cutoff 1/2 on the 3-element matrix, the final
active cluster {0,1,2} stores maxDistance 2/5 — the loop popped the
0.45 link last and discarded it unexamined — while the fresh full scan
`calcMaxDistance` over the same members returns 9/20.  The two paths
disagree. -/
theorem maxDistance_incremental_counterexample :
    links3.Perm (initLinks 3 norm3) ∧
    links3.Pairwise (fun a b => a.distance ≤ b.distance) ∧
    (clAt (doHierarchicalCutoff (mkRat 1 2) links3 (initState 3)) 4).active = true ∧
    (clAt (doHierarchicalCutoff (mkRat 1 2) links3 (initState 3)) 4).members
      = [0, 1, 2] ∧
    (clAt (doHierarchicalCutoff (mkRat 1 2) links3 (initState 3)) 4).maxDistance
      = mkRat 2 5 ∧
    calcMaxDistance norm3 [0, 1, 2] = mkRat 9 20 ∧
    ¬ (mkRat 2 5 : ℚ) = mkRat 9 20 := by
  refine ⟨by decide, by decide, by decide, by decide, by decide, by decide, by decide⟩

/-- C3 amended: after the cutoff-gated merge loop over an ascending link
queue, every active cluster's stored `maxDistance` equals the maximum
distance over the links the loop examined (all but the final discarded
link) whose endpoints both lie in the cluster — not, in general, the
full-scan `calcMaxDistance` over all member pairs, from which it can
differ exactly when the discarded final link is internal to the cluster
and realizes its diameter. -/
theorem maxDistance_incremental_amended (N : Nat) (cutoff : ℚ) (links : List Link)
    (hb : ∀ l ∈ links, l.nodeA < N ∧ l.nodeB < N ∧ 0 ≤ l.distance)
    (hsort : links.Pairwise (fun a b => a.distance ≤ b.distance)) :
    ∀ k, k < (doHierarchicalCutoff cutoff links (initState N)).clusters.length →
      (clAt (doHierarchicalCutoff cutoff links (initState N)) k).active = true →
      (clAt (doHierarchicalCutoff cutoff links (initState N)) k).maxDistance =
        maxLinkDist links.dropLast
          (clAt (doHierarchicalCutoff cutoff links (initState N)) k).members := by
  have hD0 : DInv [] (initState N) := by
    intro k hk hact
    have hlen : (initState N).clusters.length = N := by
      show (tab _ N).length = N
      simp [tab]
    have hcl : clAt (initState N) k = ⟨k, [k], 0, true⟩ :=
      getD_tab (fun i => (⟨i, [i], 0, true⟩ : Cluster)) (hlen ▸ hk) noCluster
    show (clAt (initState N) k).maxDistance = maxLinkDist [] (clAt (initState N) k).members
    rw [hcl]
    rfl
  cases links with
  | nil =>
    intro k hk hact
    exact hD0 k hk hact
  | cons l rest =>
    have heq : doHierarchicalCutoff cutoff (l :: rest) (initState N) =
        ((l :: rest).dropLast).foldl (hcStep cutoff) (initState N) :=
      cutoffLoop_eq_foldl_dropLast _ rest l (initState N)
    have hsub : ∀ l' ∈ (l :: rest).dropLast, l' ∈ l :: rest :=
      fun l' hl' => (List.dropLast_sublist (l :: rest)).subset hl'
    have := hcFold_dinv cutoff ((l :: rest).dropLast) (initState N) []
      (initState_inv N) hD0
      (fun l' hl' => hb l' (hsub l' hl'))
      (fun p hp => absurd hp (List.not_mem_nil p))
      (List.Pairwise.sublist (List.dropLast_sublist (l :: rest)) hsort)
    rw [heq]
    intro k hk hact
    exact by simpa using this.1 k hk hact

/-- Witness for the amended C3 theorem on the 3-element run: the stored
2/5 equals the max over the two examined links internal to {0,1,2}. -/
theorem maxDistance_incremental_amended_witness :
    (clAt (doHierarchicalCutoff (mkRat 1 2) links3 (initState 3)) 4).maxDistance =
      maxLinkDist links3.dropLast
        (clAt (doHierarchicalCutoff (mkRat 1 2) links3 (initState 3)) 4).members :=
  maxDistance_incremental_amended 3 (mkRat 1 2) links3 (by decide) (by decide)
    4 (by decide) (by decide)

/-! ## SPICKER invariant and iteration analysis (claims C4, C5) -/

/-- The node/cluster view of a SPICKER state. -/
def spView (st : SpState) : ClState := ⟨st.nodeCluster, st.clusters⟩

/-- Invariant of the SPICKER outer loop: the membership invariant holds
on the view; the working matrix has N rows of length N whose column i is
the original matrix column while node i is unassigned (it still points
at its own singleton) and the −1 sentinel once assigned; unassigned
nodes still own their untouched singleton cluster, assigned nodes point
at a post-initial cluster and their singleton is toggled off; clusters
created by the loop stay active; and `orphans` counts the unassigned
nodes. -/
structure SpInv (N : Nat) (norm : List (List ℚ)) (st : SpState) : Prop where
  base : Inv N (spView st)
  tlen : st.temp.length = N
  rlen : ∀ k, k < N → (st.temp.getD k []).length = N
  clen : N ≤ st.clusters.length
  tempVal : ∀ i j, i < N → j < N →
    mget st.temp j i =
      (if st.nodeCluster.getD i 0 = i then mget norm j i else -1)
  origCl : ∀ i, i < N → st.nodeCluster.getD i 0 = i →
    clAt (spView st) i = ⟨i, [i], 0, true⟩
  assignedCl : ∀ i, i < N → st.nodeCluster.getD i 0 ≠ i →
    clAt (spView st) i = ⟨i, [i], 0, false⟩ ∧ N ≤ st.nodeCluster.getD i 0
  newActive : ∀ k, N ≤ k → k < st.clusters.length →
    (clAt (spView st) k).active = true
  orph : st.orphans = (N : Int) -
    ((List.range N).filter
      (fun i => decide (st.nodeCluster.getD i 0 ≠ i))).length

/-- The initialized SPICKER state satisfies the invariant. -/
theorem spickerInit_spinv (N : Nat) (norm : List (List ℚ))
    (hlen : norm.length = N) (hrow : ∀ k, k < N → (norm.getD k []).length = N) :
    SpInv N norm (spickerInit N norm) := by
  have hview : spView (spickerInit N norm) = initState N := rfl
  have hnc : ∀ i, i < N → (spickerInit N norm).nodeCluster.getD i 0 = i :=
    fun i hi => getD_tab (fun x => x) hi 0
  refine ⟨hview ▸ initState_inv N, hlen, hrow, ?_, ?_, ?_, ?_, ?_, ?_⟩
  · show N ≤ (initState N).clusters.length
    have : (initState N).clusters.length = N := by
      show (tab _ N).length = N
      simp [tab]
    omega
  · intro i j hi hj
    rw [hnc i hi, if_pos rfl]
    rfl
  · intro i hi _
    rw [hview]
    exact getD_tab (fun x => (⟨x, [x], 0, true⟩ : Cluster)) hi noCluster
  · intro i hi hne
    exact absurd (hnc i hi) hne
  · intro k hk1 hk2
    have hlen2 : (spickerInit N norm).clusters.length = N := by
      show (tab _ N).length = N
      simp [tab]
    omega
  · have hfe : (List.range N).filter
        (fun i => decide ((spickerInit N norm).nodeCluster.getD i 0 ≠ i)) = [] := by
      rw [List.filter_eq_nil_iff]
      intro i hi
      simp only [decide_eq_true_eq, ne_eq, Decidable.not_not]
      exact hnc i (List.mem_range.mp hi)
    show ((N : Int)) = _
    rw [hfe]
    simp

/-- Count of matching entries in a row, re-expressed over positions. -/
theorem countP_eq_positions (p : ℚ → Bool) :
    ∀ row : List ℚ,
      row.countP p =
        ((List.range row.length).filter (fun j => p (row.getD j 0))).length := by
  intro row
  induction row with
  | nil => rfl
  | cons v vs ih =>
    rw [List.countP_cons, List.length_cons, List.range_succ_eq_map]
    rw [List.filter_cons]
    have hmap : (List.filter (fun j => p ((v :: vs).getD j 0))
        ((List.range vs.length).map (fun i => i + 1))) =
        ((List.range vs.length).filter (fun j => p (vs.getD j 0))).map
          (fun i => i + 1) := by
      induction (List.range vs.length) with
      | nil => rfl
      | cons a t iht =>
        rw [List.map_cons, List.filter_cons, List.filter_cons]
        simp only [List.getD_cons_succ]
        by_cases hpa : p (vs.getD a 0) = true
        · rw [if_pos hpa, if_pos hpa, List.map_cons, iht]
        · rw [if_neg hpa, if_neg hpa, iht]
    simp only [List.getD_cons_zero] at hmap ⊢
    rw [hmap, ih]
    by_cases hp : p v = true
    · rw [if_pos hp, if_pos hp, List.length_cons, List.length_map]
    · rw [if_neg hp, if_neg hp, List.length_map]
      omega

theorem filter_or_length (p q : Nat → Bool) :
    ∀ L : List Nat, (∀ i ∈ L, ¬(p i = true ∧ q i = true)) →
      (L.filter (fun i => p i || q i)).length =
        (L.filter p).length + (L.filter q).length := by
  intro L
  induction L with
  | nil => intro _; rfl
  | cons a t ih =>
    intro hd
    have hd' : ∀ i ∈ t, ¬(p i = true ∧ q i = true) :=
      fun i hi => hd i (List.mem_cons_of_mem _ hi)
    rw [List.filter_cons, List.filter_cons, List.filter_cons]
    by_cases hp : p a = true
    · have hq : ¬ q a = true := fun hq => hd a (List.mem_cons_self a t) ⟨hp, hq⟩
      rw [if_pos (by simp [hp]), if_pos hp, if_neg hq]
      simp only [List.length_cons]
      rw [ih hd']
      omega
    · by_cases hq : q a = true
      · rw [if_pos (by simp [hq]), if_neg hp, if_pos hq]
        simp only [List.length_cons]
        rw [ih hd']
        omega
      · rw [if_neg (by simp [hp, hq]), if_neg hp, if_neg hq, ih hd']

theorem getD_out {α : Type} (xs : List α) (k : Nat) (d : α)
    (h : xs.length ≤ k) : xs.getD k d = d := by
  rw [List.getD_eq_getElem?_getD, List.getElem?_eq_none h]
  rfl

theorem getD_setColumn (temp : List (List ℚ)) (col : Nat) (v : ℚ) (k : Nat) :
    (setColumn temp col v).getD k [] = (temp.getD k []).set col v := by
  unfold setColumn
  rw [List.getD_eq_getElem?_getD, List.getElem?_map, List.getD_eq_getElem?_getD]
  cases temp[k]? <;> rfl

theorem length_setColumn (temp : List (List ℚ)) (col : Nat) (v : ℚ) :
    (setColumn temp col v).length = temp.length := by
  unfold setColumn
  rw [List.length_map]

/-- Characterization of one harvesting step's state, when the entry is
eligible and node `i` is unassigned. -/
theorem spickerAssign_state (cutoff : ℚ) (mr nc : Nat) (st : SpState)
    (ms0 : List Nat) (i : Nat)
    (helig : mget st.temp mr i < cutoff ∧ 0 ≤ mget st.temp mr i)
    (hui : st.nodeCluster.getD i 0 = i)
    (hnci : i < st.nodeCluster.length)
    (hrowi : ∀ k, k < st.temp.length → i < (st.temp.getD k []).length) :
    spickerAssign cutoff mr nc (st, ms0) i =
      (⟨setColumn (listModify (fun row => row.set i (-1)) mr st.temp) i (-1),
        st.nodeCluster.set i nc, toggleActive st.clusters i,
        st.orphans - 1⟩, ms0 ++ [i]) := by
  unfold spickerAssign
  rw [if_pos helig, hui]

theorem spickerGather_spec (cutoff : ℚ) (mr nc : Nat) :
    ∀ (L : List Nat) (st : SpState) (ms0 : List Nat),
      L.Nodup →
      (∀ i ∈ L, i < st.nodeCluster.length) →
      (∀ i ∈ L, i < st.clusters.length) →
      (∀ i ∈ L, ∀ k, k < st.temp.length → i < (st.temp.getD k []).length) →
      (∀ i ∈ L, (mget st.temp mr i < cutoff ∧ 0 ≤ mget st.temp mr i) →
        st.nodeCluster.getD i 0 = i) →
      (L.foldl (spickerAssign cutoff mr nc) (st, ms0)).2 =
        ms0 ++ L.filter
          (fun i => decide (mget st.temp mr i < cutoff ∧ 0 ≤ mget st.temp mr i)) ∧
      (L.foldl (spickerAssign cutoff mr nc) (st, ms0)).1.orphans =
        st.orphans - (L.filter (fun i =>
          decide (mget st.temp mr i < cutoff ∧ 0 ≤ mget st.temp mr i))).length ∧
      (L.foldl (spickerAssign cutoff mr nc) (st, ms0)).1.nodeCluster.length =
        st.nodeCluster.length ∧
      (∀ m, (L.foldl (spickerAssign cutoff mr nc) (st, ms0)).1.nodeCluster.getD m 0 =
        if m ∈ L.filter (fun i =>
            decide (mget st.temp mr i < cutoff ∧ 0 ≤ mget st.temp mr i)) then nc
        else st.nodeCluster.getD m 0) ∧
      (L.foldl (spickerAssign cutoff mr nc) (st, ms0)).1.clusters.length =
        st.clusters.length ∧
      (∀ k, (L.foldl (spickerAssign cutoff mr nc) (st, ms0)).1.clusters.getD k
          noCluster =
        if k ∈ L.filter (fun i =>
            decide (mget st.temp mr i < cutoff ∧ 0 ≤ mget st.temp mr i)) then
          toggled (st.clusters.getD k noCluster)
        else st.clusters.getD k noCluster) ∧
      (L.foldl (spickerAssign cutoff mr nc) (st, ms0)).1.temp.length =
        st.temp.length ∧
      (∀ k, ((L.foldl (spickerAssign cutoff mr nc) (st, ms0)).1.temp.getD k []).length
        = (st.temp.getD k []).length) ∧
      (∀ a b, mget (L.foldl (spickerAssign cutoff mr nc) (st, ms0)).1.temp a b =
        if b ∈ L.filter (fun i =>
            decide (mget st.temp mr i < cutoff ∧ 0 ≤ mget st.temp mr i)) ∧
            a < st.temp.length then -1
        else mget st.temp a b) := by
  intro L
  induction L with
  | nil =>
    intro st ms0 _ _ _ _ _
    refine ⟨by simp, by simp, rfl, fun m => by simp, rfl, fun k => by simp, rfl,
      fun k => rfl, fun a b => by simp⟩
  | cons i L' ih =>
    intro st ms0 hnd hb1 hb2 hb3 hun
    have hiL' : i ∉ L' := (List.nodup_cons.mp hnd).1
    have hnd' : L'.Nodup := (List.nodup_cons.mp hnd).2
    by_cases helig : mget st.temp mr i < cutoff ∧ 0 ≤ mget st.temp mr i
    · -- eligible head: one assignment happens
      have hui : st.nodeCluster.getD i 0 = i := hun i (List.mem_cons_self i L') helig
      have hstep := spickerAssign_state cutoff mr nc st ms0 i helig hui
        (hb1 i (List.mem_cons_self i L'))
        (hb3 i (List.mem_cons_self i L'))
      set st1 : SpState :=
        ⟨setColumn (listModify (fun row => row.set i (-1)) mr st.temp) i (-1),
          st.nodeCluster.set i nc, toggleActive st.clusters i,
          st.orphans - 1⟩ with hst1
      have hfold : (i :: L').foldl (spickerAssign cutoff mr nc) (st, ms0) =
          L'.foldl (spickerAssign cutoff mr nc) (st1, ms0 ++ [i]) := by
        rw [List.foldl_cons, hstep]
      -- facts about st1
      have f5 : st1.temp.length = st.temp.length := by
        rw [hst1]
        show (setColumn _ _ _).length = _
        rw [length_setColumn, length_listModify]
      have f6 : ∀ k, (st1.temp.getD k []).length = (st.temp.getD k []).length := by
        intro k
        rw [hst1]
        show ((setColumn _ _ _).getD k []).length = _
        rw [getD_setColumn, List.length_set, getD_listModify]
        split_ifs with h
        · rw [List.length_set]
        · rfl
      have f7 : ∀ a b, mget st1.temp a b =
          if b = i ∧ a < st.temp.length then -1 else mget st.temp a b := by
        intro a b
        rw [hst1]
        show ((setColumn _ _ _).getD a []).getD b 0 = _
        rw [getD_setColumn, getD_set', getD_listModify]
        have hlen_if : (if a = mr ∧ mr < st.temp.length then
            (st.temp.getD a []).set i (-1) else st.temp.getD a []).length =
            (st.temp.getD a []).length := by
          split_ifs with h
          · rw [List.length_set]
          · rfl
        rw [hlen_if]
        by_cases ha : a < st.temp.length
        · have hil : i < (st.temp.getD a []).length :=
            hb3 i (List.mem_cons_self i L') a ha
          by_cases hbi : b = i
          · rw [if_pos ⟨hbi, hil⟩, if_pos ⟨hbi, ha⟩]
          · rw [if_neg (show ¬(b = i ∧ i < (st.temp.getD a []).length) from
              fun hc => hbi hc.1),
              if_neg (show ¬(b = i ∧ a < st.temp.length) from fun hc => hbi hc.1)]
            split_ifs with h
            · rw [getD_set',
                if_neg (show ¬(b = i ∧ i < (st.temp.getD a []).length) from
                  fun hc => hbi hc.1)]
              rfl
            · rfl
        · have hrl : (st.temp.getD a []).length = 0 := by
            rw [getD_out _ _ _ (by omega)]
            rfl
          rw [if_neg (show ¬(b = i ∧ i < (st.temp.getD a []).length) from
              fun hc => absurd (hrl ▸ hc.2) (Nat.not_lt_zero i)),
            if_neg (show ¬(b = i ∧ a < st.temp.length) from fun hc => ha hc.2)]
          split_ifs with h
          · rw [getD_set',
              if_neg (show ¬(b = i ∧ i < (st.temp.getD a []).length) from
                fun hc => absurd (hrl ▸ hc.2) (Nat.not_lt_zero i))]
            rfl
          · rfl
      have f2 : ∀ m, st1.nodeCluster.getD m 0 =
          if m = i then nc else st.nodeCluster.getD m 0 := by
        intro m
        rw [hst1]
        show (st.nodeCluster.set i nc).getD m 0 = _
        rw [getD_set']
        by_cases hm : m = i
        · rw [if_pos ⟨hm, hb1 i (List.mem_cons_self i L')⟩, if_pos hm]
        · rw [if_neg (fun hc => hm hc.1), if_neg hm]
      have f4 : ∀ k, st1.clusters.getD k noCluster =
          if k = i then toggled (st.clusters.getD k noCluster)
          else st.clusters.getD k noCluster := by
        intro k
        rw [hst1]
        show (toggleActive st.clusters i).getD k noCluster = _
        rw [clAt_toggle]
        by_cases hk : k = i
        · rw [if_pos ⟨hk, hb2 i (List.mem_cons_self i L')⟩, if_pos hk]
        · rw [if_neg (fun hc => hk hc.1), if_neg hk]
      have hmr_eq : ∀ j ∈ L', mget st1.temp mr j = mget st.temp mr j := by
        intro j hj
        rw [f7, if_neg (show ¬(j = i ∧ mr < st.temp.length) from
          fun hc => hiL' (hc.1 ▸ hj))]
      have hfeq : L'.filter (fun j =>
            decide (mget st1.temp mr j < cutoff ∧ 0 ≤ mget st1.temp mr j)) =
          L'.filter (fun j =>
            decide (mget st.temp mr j < cutoff ∧ 0 ≤ mget st.temp mr j)) := by
        apply List.filter_congr
        intro j hj
        rw [hmr_eq j hj]
      have hF : (i :: L').filter (fun j =>
            decide (mget st.temp mr j < cutoff ∧ 0 ≤ mget st.temp mr j)) =
          i :: L'.filter (fun j =>
            decide (mget st.temp mr j < cutoff ∧ 0 ≤ mget st.temp mr j)) :=
        List.filter_cons_of_pos (by simpa using helig)
      obtain ⟨g1, g2, g3, g4, g5, g6, g7, g8, g9⟩ := ih st1 (ms0 ++ [i]) hnd'
        (fun j hj => by
          show j < (st.nodeCluster.set i nc).length
          rw [List.length_set]
          exact hb1 j (List.mem_cons_of_mem _ hj))
        (fun j hj => by
          show j < (toggleActive st.clusters i).length
          rw [length_toggle]
          exact hb2 j (List.mem_cons_of_mem _ hj))
        (fun j hj k hk => by
          rw [f6 k]; exact hb3 j (List.mem_cons_of_mem _ hj) k (f5 ▸ hk))
        (fun j hj he => by
          rw [f2, if_neg (show ¬ j = i from fun hc => hiL' (hc ▸ hj))]
          exact hun j (List.mem_cons_of_mem _ hj) (by rwa [hmr_eq j hj] at he))
      rw [hfeq] at g1 g2 g4 g6 g9
      refine ⟨?_, ?_, ?_, ?_, ?_, ?_, ?_, ?_, ?_⟩
      · rw [hfold, g1, hF, List.append_assoc]
        rfl
      · rw [hfold, g2, hF]
        show st1.orphans - _ = _
        have : st1.orphans = st.orphans - 1 := rfl
        rw [this, List.length_cons]
        omega
      · rw [hfold, g3, hst1]
        show (st.nodeCluster.set i nc).length = _
        rw [List.length_set]
      · intro m
        rw [hfold, g4, hF, f2]
        by_cases hm1 : m ∈ L'.filter (fun j =>
            decide (mget st.temp mr j < cutoff ∧ 0 ≤ mget st.temp mr j))
        · rw [if_pos hm1, if_pos (List.mem_cons_of_mem _ hm1)]
        · rw [if_neg hm1]
          by_cases hm2 : m = i
          · rw [if_pos hm2, if_pos (hm2 ▸ List.mem_cons_self i _)]
          · rw [if_neg hm2, if_neg (fun hc => (List.mem_cons.mp hc).elim hm2 hm1)]
      · rw [hfold, g5]
        rw [hst1]
        show (toggleActive _ _).length = _
        rw [length_toggle]
      · intro k
        rw [hfold, g6, hF, f4]
        by_cases hk1 : k ∈ L'.filter (fun j =>
            decide (mget st.temp mr j < cutoff ∧ 0 ≤ mget st.temp mr j))
        · have hki : ¬ k = i := fun hc =>
            hiL' (List.mem_of_mem_filter (hc ▸ hk1))
          rw [if_pos hk1, if_neg hki, if_pos (List.mem_cons_of_mem _ hk1)]
        · rw [if_neg hk1]
          by_cases hk2 : k = i
          · rw [if_pos hk2, if_pos (hk2 ▸ List.mem_cons_self i _)]
          · rw [if_neg hk2, if_neg (fun hc => (List.mem_cons.mp hc).elim hk2 hk1)]
      · rw [hfold, g7, f5]
      · intro k
        rw [hfold, g8, f6]
      · intro a b
        rw [hfold, g9, f5, f7, hF]
        by_cases hb' : b ∈ L'.filter (fun j =>
            decide (mget st.temp mr j < cutoff ∧ 0 ≤ mget st.temp mr j))
        · by_cases ha : a < st.temp.length
          · rw [if_pos ⟨hb', ha⟩, if_pos ⟨List.mem_cons_of_mem _ hb', ha⟩]
          · rw [if_neg (fun hc => ha hc.2), if_neg (fun hc => ha hc.2),
              if_neg (fun hc => ha hc.2)]
        · rw [if_neg (fun hc => hb' hc.1)]
          by_cases hbi : b = i
          · by_cases ha : a < st.temp.length
            · rw [if_pos ⟨hbi, ha⟩, if_pos ⟨hbi ▸ List.mem_cons_self i _, ha⟩]
            · rw [if_neg (fun hc => ha hc.2), if_neg (fun hc => ha hc.2)]
          · rw [if_neg (fun hc => hbi hc.1),
              if_neg (fun hc => (List.mem_cons.mp hc.1).elim hbi hb')]
    · -- ineligible head: the step is a no-op
      have hstep : spickerAssign cutoff mr nc (st, ms0) i = (st, ms0) := by
        unfold spickerAssign
        rw [if_neg helig]
      have hfold : (i :: L').foldl (spickerAssign cutoff mr nc) (st, ms0) =
          L'.foldl (spickerAssign cutoff mr nc) (st, ms0) := by
        rw [List.foldl_cons, hstep]
      have hF : (i :: L').filter (fun j =>
            decide (mget st.temp mr j < cutoff ∧ 0 ≤ mget st.temp mr j)) =
          L'.filter (fun j =>
            decide (mget st.temp mr j < cutoff ∧ 0 ≤ mget st.temp mr j)) :=
        List.filter_cons_of_neg (by simpa using helig)
      obtain ⟨g1, g2, g3, g4, g5, g6, g7, g8, g9⟩ := ih st ms0 hnd'
        (fun j hj => hb1 j (List.mem_cons_of_mem _ hj))
        (fun j hj => hb2 j (List.mem_cons_of_mem _ hj))
        (fun j hj => hb3 j (List.mem_cons_of_mem _ hj))
        (fun j hj => hun j (List.mem_cons_of_mem _ hj))
      rw [hF, hfold]
      exact ⟨g1, g2, g3, g4, g5, g6, g7, g8, g9⟩

/-- One pass of the SPICKER outer loop preserves the invariant, assigns
at least one element (strictly decreasing `orphans`) and appends exactly
one cluster — under the loop guard, a positive cutoff and a nonnegative,
zero-diagonal matrix. -/
theorem spickerIter_spinv {N : Nat} {norm : List (List ℚ)} {cutoff : ℚ}
    {st : SpState} (hS : SpInv N norm st) (hN : 1 ≤ N) (hcut : 0 < cutoff)
    (hdiag : ∀ i, i < N → mget norm i i = 0) (hnn : ∀ i j, 0 ≤ mget norm i j)
    (horph : 0 < st.orphans) :
    SpInv N norm (spickerIter cutoff N norm st) ∧
    (spickerIter cutoff N norm st).orphans < st.orphans ∧
    (spickerIter cutoff N norm st).clusters.length = st.clusters.length + 1 := by
  obtain ⟨P1, _, P3⟩ := selectRowAux_spec cutoff st.temp 0 (-1) 0
  have hsel : selectMaxRow cutoff st.temp = selectRowAux cutoff st.temp 0 (-1) 0 := rfl
  rcases P3 with ⟨_, hall⟩ | ⟨k0, hk0, hmr1, hmr2, _⟩
  · exact absurd (hall 0 (by rw [hS.tlen]; omega)) (by omega)
  set mr := (selectMaxRow cutoff st.temp).1.toNat with hmrDef
  have hmrN : mr < N := by
    rw [hmrDef, hsel, hmr1]
    rw [hS.tlen] at hk0
    simpa using hk0
  have hmrrow : st.temp.getD mr [] = st.temp.getD k0 [] := by
    rw [hmrDef, hsel, hmr1]
    simp
  have hex : ∃ u, u < N ∧ st.nodeCluster.getD u 0 = u := by
    by_contra hno
    push_neg at hno
    have hfe : (List.range N).filter
        (fun i => decide (st.nodeCluster.getD i 0 ≠ i)) = List.range N := by
      rw [List.filter_eq_self]
      intro i hi
      simpa using hno i (List.mem_range.mp hi)
    have horm := hS.orph
    rw [hfe] at horm
    simp only [List.length_range] at horm
    omega
  obtain ⟨u, hu, huun⟩ := hex
  have hcount_u : 1 ≤ nbCountRow cutoff (st.temp.getD u []) := by
    have hval : mget st.temp u u = 0 := by
      rw [hS.tempVal u u hu hu, if_pos huun]
      exact hdiag u hu
    have hulen : u < (st.temp.getD u []).length := by
      rw [hS.rlen u hu]
      exact hu
    have hmem : (st.temp.getD u []).getD u 0 ∈ st.temp.getD u [] := by
      rw [List.getD_eq_getElem _ _ hulen]
      exact List.getElem_mem hulen
    show 0 < List.countP _ _
    apply List.countP_pos.mpr
    refine ⟨(st.temp.getD u []).getD u 0, hmem, ?_⟩
    have hvv : (st.temp.getD u []).getD u 0 = mget st.temp u u := rfl
    rw [hvv, hval]
    simp only [Bool.and_eq_true, decide_eq_true_eq]
    exact ⟨hcut, le_refl 0⟩
  have hmn : 1 ≤ (selectRowAux cutoff st.temp 0 (-1) 0).2 :=
    le_trans hcount_u (P1 u (by rw [hS.tlen]; exact hu))
  have hrowlen : (st.temp.getD mr []).length = N := hS.rlen mr hmrN
  have hSlen : ((List.range N).filter (fun i =>
      decide (mget st.temp mr i < cutoff ∧ 0 ≤ mget st.temp mr i))).length =
      nbCountRow cutoff (st.temp.getD mr []) := by
    show _ = List.countP _ _
    rw [countP_eq_positions, hrowlen]
    congr 1
    apply List.filter_congr
    intro j _
    have hvv : (st.temp.getD mr []).getD j 0 = mget st.temp mr j := rfl
    rw [hvv]
    by_cases h1 : mget st.temp mr j < cutoff <;>
      by_cases h2 : (0 : ℚ) ≤ mget st.temp mr j <;> simp [h1, h2]
  have hS1 : 1 ≤ ((List.range N).filter (fun i =>
      decide (mget st.temp mr i < cutoff ∧ 0 ≤ mget st.temp mr i))).length := by
    rw [hSlen, hmrrow]
    calc 1 ≤ (selectRowAux cutoff st.temp 0 (-1) 0).2 := hmn
    _ = nbCountRow cutoff (st.temp.getD k0 []) := hmr2.symm
  have hun : ∀ i, i < N →
      (mget st.temp mr i < cutoff ∧ 0 ≤ mget st.temp mr i) →
      st.nodeCluster.getD i 0 = i := by
    intro i hi helig
    by_contra hass
    rw [hS.tempVal i mr hi hmrN, if_neg hass] at helig
    have h2 := helig.2
    norm_num at h2
  have hncLenN : st.nodeCluster.length = N := hS.base.ncLen
  obtain ⟨g1, g2, g3, g4, g5, g6, g7, g8, g9⟩ :=
    spickerGather_spec cutoff mr st.clusters.length (List.range N) st []
      (List.nodup_range N)
      (fun i hi => by rw [hncLenN]; exact List.mem_range.mp hi)
      (fun i hi => lt_of_lt_of_le (List.mem_range.mp hi) hS.clen)
      (fun i hi k hk => by
        rw [hS.rlen k (by rw [← hS.tlen]; exact hk)]
        exact List.mem_range.mp hi)
      (fun i hi => hun i (List.mem_range.mp hi))
  rw [List.nil_append] at g1
  have hnc' : (spickerIter cutoff N norm st).nodeCluster =
      ((List.range N).foldl (spickerAssign cutoff mr st.clusters.length)
        (st, [])).1.nodeCluster := rfl
  have htemp' : (spickerIter cutoff N norm st).temp =
      ((List.range N).foldl (spickerAssign cutoff mr st.clusters.length)
        (st, [])).1.temp := rfl
  have horph' : (spickerIter cutoff N norm st).orphans =
      ((List.range N).foldl (spickerAssign cutoff mr st.clusters.length)
        (st, [])).1.orphans := rfl
  have hcls' : (spickerIter cutoff N norm st).clusters =
      ((List.range N).foldl (spickerAssign cutoff mr st.clusters.length)
        (st, [])).1.clusters ++
      [⟨st.clusters.length,
        ((List.range N).foldl (spickerAssign cutoff mr st.clusters.length)
          (st, [])).2,
        calcMaxDistance norm
          ((List.range N).foldl (spickerAssign cutoff mr st.clusters.length)
            (st, [])).2, true⟩] := rfl
  rw [g1] at hcls'
  have hlen' : (spickerIter cutoff N norm st).clusters.length =
      st.clusters.length + 1 := by
    rw [hcls', List.length_append, g5]
    rfl
  have hSsub : ∀ i ∈ (List.range N).filter (fun i =>
      decide (mget st.temp mr i < cutoff ∧ 0 ≤ mget st.temp mr i)), i < N :=
    fun i hi => List.mem_range.mp (List.mem_of_mem_filter hi)
  have hSun : ∀ i ∈ (List.range N).filter (fun i =>
      decide (mget st.temp mr i < cutoff ∧ 0 ≤ mget st.temp mr i)),
      st.nodeCluster.getD i 0 = i := by
    intro i hi
    exact hun i (hSsub i hi) (by simpa using List.of_mem_filter hi)
  have hSsing : ∀ i ∈ (List.range N).filter (fun i =>
      decide (mget st.temp mr i < cutoff ∧ 0 ≤ mget st.temp mr i)),
      st.clusters.getD i noCluster = ⟨i, [i], 0, true⟩ := by
    intro i hi
    exact hS.origCl i (hSsub i hi) (hSun i hi)
  have hclAt' : ∀ k, (spickerIter cutoff N norm st).clusters.getD k noCluster =
      if k = st.clusters.length then
        ⟨st.clusters.length,
          (List.range N).filter (fun i =>
            decide (mget st.temp mr i < cutoff ∧ 0 ≤ mget st.temp mr i)),
          calcMaxDistance norm ((List.range N).filter (fun i =>
            decide (mget st.temp mr i < cutoff ∧ 0 ≤ mget st.temp mr i))), true⟩
      else if k ∈ (List.range N).filter (fun i =>
          decide (mget st.temp mr i < cutoff ∧ 0 ≤ mget st.temp mr i)) then
        toggled (st.clusters.getD k noCluster)
      else st.clusters.getD k noCluster := by
    intro k
    rw [hcls']
    by_cases hk : k < st.clusters.length
    · rw [getD_append_low _ _ _ _ (by rw [g5]; exact hk), g6,
        if_neg (show ¬ k = st.clusters.length by omega)]
    · by_cases hkL : k = st.clusters.length
      · rw [if_pos hkL, getD_append_high _ _ _ _ (by rw [g5]; omega), g5, hkL]
        simp
      · have hnot : k ∉ (List.range N).filter (fun i =>
            decide (mget st.temp mr i < cutoff ∧ 0 ≤ mget st.temp mr i)) := by
          intro hc
          have h1 := hSsub k hc
          have h2 := hS.clen
          omega
        rw [if_neg hkL, if_neg hnot,
          getD_append_high _ _ _ _ (by rw [g5]; omega), g5]
        rw [getD_out _ _ _ (by simp; omega), getD_out _ _ _ (by omega)]
  have hvlen : (spView st).clusters.length = st.clusters.length := rfl
  refine ⟨⟨?_, g7 ▸ hS.tlen, ?_, ?_, ?_, ?_, ?_, ?_, ?_⟩, ?_, hlen'⟩
  · -- the base invariant on the view
    refine ⟨?_, ?_, ?_, ?_, ?_, ?_, ?_, ?_, ?_⟩
    · show (spickerIter cutoff N norm st).nodeCluster.length = N
      rw [hnc', g3, hncLenN]
    · intro k hk
      show ((spickerIter cutoff N norm st).clusters.getD k noCluster).id = k
      have hk2 : k < st.clusters.length + 1 := by
        rw [← hlen']
        exact hk
      rw [hclAt']
      split_ifs with e1 e2
      · rw [e1]
      · rw [show (toggled (st.clusters.getD k noCluster)).id =
          (st.clusters.getD k noCluster).id from rfl, hSsing k e2]
      · exact hS.base.ids k (by rw [hvlen]; omega)
    · intro k hk hact m hm
      have hk2 : k < st.clusters.length + 1 := by
        rw [← hlen']
        exact hk
      rw [show clAt (spView (spickerIter cutoff N norm st)) k =
        (spickerIter cutoff N norm st).clusters.getD k noCluster from rfl,
        hclAt'] at hact hm
      split_ifs at hact hm with e1 e2
      · exact hSsub m hm
      · rw [show (toggled (st.clusters.getD k noCluster)).active =
          !(st.clusters.getD k noCluster).active from rfl, hSsing k e2] at hact
        cases hact
      · exact hS.base.memBound k (by rw [hvlen]; omega) hact m hm
    · intro k hk hact m hm
      have hk2 : k < st.clusters.length + 1 := by
        rw [← hlen']
        exact hk
      rw [show clAt (spView (spickerIter cutoff N norm st)) k =
        (spickerIter cutoff N norm st).clusters.getD k noCluster from rfl,
        hclAt'] at hact hm
      show (spickerIter cutoff N norm st).nodeCluster.getD m 0 = k
      rw [hnc', g4]
      split_ifs at hact hm with e1 e2
      · rw [if_pos hm, e1]
      · rw [show (toggled (st.clusters.getD k noCluster)).active =
          !(st.clusters.getD k noCluster).active from rfl, hSsing k e2] at hact
        cases hact
      · have hmk : st.nodeCluster.getD m 0 = k :=
          hS.base.memPtr k (by rw [hvlen]; omega) hact m hm
        rw [if_neg (fun hin => e2 (((hSun m hin).symm.trans hmk) ▸ hin)), hmk]
    · intro n hn
      show (spickerIter cutoff N norm st).nodeCluster.getD n 0 <
        (spickerIter cutoff N norm st).clusters.length
      rw [hnc', g4, hlen']
      split_ifs with e1
      · omega
      · have h2 : st.nodeCluster.getD n 0 < st.clusters.length :=
          hS.base.ptrLt n hn
        omega
    · intro n hn
      show ((spickerIter cutoff N norm st).clusters.getD
        ((spickerIter cutoff N norm st).nodeCluster.getD n 0) noCluster).active
          = true
      rw [hnc', g4]
      split_ifs with e1
      · rw [hclAt', if_pos rfl]
      · have hlt : st.nodeCluster.getD n 0 < st.clusters.length :=
          hS.base.ptrLt n hn
        rw [hclAt', if_neg (by omega)]
        have hnot : st.nodeCluster.getD n 0 ∉ (List.range N).filter (fun i =>
            decide (mget st.temp mr i < cutoff ∧ 0 ≤ mget st.temp mr i)) := by
          intro hc
          by_cases hassn : st.nodeCluster.getD n 0 = n
          · exact e1 (hassn ▸ hc)
          · have h3 := (hS.assignedCl n hn hassn).2
            have h4 := hSsub _ hc
            omega
        rw [if_neg hnot]
        exact hS.base.ptrActive n hn
    · intro n hn
      show n ∈ ((spickerIter cutoff N norm st).clusters.getD
        ((spickerIter cutoff N norm st).nodeCluster.getD n 0) noCluster).members
      rw [hnc', g4]
      split_ifs with e1
      · rw [hclAt', if_pos rfl]
        exact e1
      · have hlt : st.nodeCluster.getD n 0 < st.clusters.length :=
          hS.base.ptrLt n hn
        rw [hclAt', if_neg (by omega)]
        have hnot : st.nodeCluster.getD n 0 ∉ (List.range N).filter (fun i =>
            decide (mget st.temp mr i < cutoff ∧ 0 ≤ mget st.temp mr i)) := by
          intro hc
          by_cases hassn : st.nodeCluster.getD n 0 = n
          · exact e1 (hassn ▸ hc)
          · have h3 := (hS.assignedCl n hn hassn).2
            have h4 := hSsub _ hc
            omega
        rw [if_neg hnot]
        exact hS.base.ptrMem n hn
    · intro k hk
      have hk2 : k < st.clusters.length + 1 := by
        rw [← hlen']
        exact hk
      show ((spickerIter cutoff N norm st).clusters.getD k noCluster).members.Nodup
      rw [hclAt']
      split_ifs with e1 e2
      · exact List.Nodup.filter _ (List.nodup_range N)
      · rw [show (toggled (st.clusters.getD k noCluster)).members =
          (st.clusters.getD k noCluster).members from rfl]
        exact hS.base.nodupMem k (by rw [hvlen]; omega)
      · exact hS.base.nodupMem k (by rw [hvlen]; omega)
    · intro k hk hact
      have hk2 : k < st.clusters.length + 1 := by
        rw [← hlen']
        exact hk
      rw [show clAt (spView (spickerIter cutoff N norm st)) k =
        (spickerIter cutoff N norm st).clusters.getD k noCluster from rfl,
        hclAt'] at hact ⊢
      split_ifs at hact ⊢ with e1 e2
      · show (List.range N).filter _ ≠ []
        intro hnil
        rw [hnil] at hS1
        simp at hS1
      · rw [show (toggled (st.clusters.getD k noCluster)).active =
          !(st.clusters.getD k noCluster).active from rfl, hSsing k e2] at hact
        cases hact
      · exact hS.base.activeNe k (by rw [hvlen]; omega) hact
  · -- temp row lengths
    intro k hk
    show ((spickerIter cutoff N norm st).temp.getD k []).length = N
    rw [htemp', g8]
    exact hS.rlen k hk
  · -- at least N clusters
    show N ≤ (spickerIter cutoff N norm st).clusters.length
    rw [hlen']
    have h2 := hS.clen
    omega
  · -- temp values track assignment
    intro i j hi hj
    show mget (spickerIter cutoff N norm st).temp j i = _
    rw [htemp', g9, hnc', g4]
    by_cases hiS : i ∈ (List.range N).filter (fun i =>
        decide (mget st.temp mr i < cutoff ∧ 0 ≤ mget st.temp mr i))
    · rw [if_pos ⟨hiS, by rw [hS.tlen]; exact hj⟩, if_pos hiS,
        if_neg (show ¬ st.clusters.length = i by
          have h2 := hS.clen
          have h3 := hSsub i hiS
          omega)]
    · rw [if_neg (fun hc => hiS hc.1), if_neg hiS, hS.tempVal i j hi hj]
  · -- unassigned nodes still own their singleton
    intro i hi hui
    rw [hnc', g4] at hui
    show (spickerIter cutoff N norm st).clusters.getD i noCluster = _
    rw [hclAt']
    split_ifs at hui with e1
    · exact absurd hui (by
        have h2 := hS.clen
        omega)
    · rw [if_neg (show ¬ i = st.clusters.length by
        have h2 := hS.clen
        omega), if_neg e1]
      exact hS.origCl i hi hui
  · -- assigned nodes: singleton off, pointer past the initial range
    intro i hi hass
    rw [hnc', g4] at hass
    constructor
    · show (spickerIter cutoff N norm st).clusters.getD i noCluster = _
      rw [hclAt', if_neg (show ¬ i = st.clusters.length by
        have h2 := hS.clen
        omega)]
      by_cases e1 : i ∈ (List.range N).filter (fun i =>
          decide (mget st.temp mr i < cutoff ∧ 0 ≤ mget st.temp mr i))
      · rw [if_pos e1, hSsing i e1]
        rfl
      · rw [if_neg e1]
        rw [if_neg e1] at hass
        exact (hS.assignedCl i hi hass).1
    · show N ≤ (spickerIter cutoff N norm st).nodeCluster.getD i 0
      rw [hnc', g4]
      by_cases e1 : i ∈ (List.range N).filter (fun i =>
          decide (mget st.temp mr i < cutoff ∧ 0 ≤ mget st.temp mr i))
      · rw [if_pos e1]
        exact hS.clen
      · rw [if_neg e1]
        rw [if_neg e1] at hass
        exact (hS.assignedCl i hi hass).2
  · -- loop-created clusters stay active
    intro k hk1 hk2
    rw [hlen'] at hk2
    show ((spickerIter cutoff N norm st).clusters.getD k noCluster).active = true
    rw [hclAt']
    by_cases e1 : k = st.clusters.length
    · rw [if_pos e1]
    · rw [if_neg e1, if_neg (fun hc => by
        have h2 := hSsub k hc
        omega)]
      exact hS.newActive k hk1 (by omega)
  · -- orphan bookkeeping
    show (spickerIter cutoff N norm st).orphans = _
    rw [horph', g2, hS.orph]
    have hpoint : ∀ i ∈ List.range N,
        decide ((spickerIter cutoff N norm st).nodeCluster.getD i 0 ≠ i) =
        (decide (st.nodeCluster.getD i 0 ≠ i) ||
          decide (mget st.temp mr i < cutoff ∧ 0 ≤ mget st.temp mr i)) := by
      intro i hi
      rw [hnc', g4]
      by_cases e1 : i ∈ (List.range N).filter (fun i =>
          decide (mget st.temp mr i < cutoff ∧ 0 ≤ mget st.temp mr i))
      · rw [if_pos e1]
        have h1 : decide (st.clusters.length ≠ i) = true :=
          decide_eq_true (by
            have h2 := hS.clen
            have h3 := List.mem_range.mp hi
            omega)
        rw [h1, List.of_mem_filter e1, Bool.or_true]
      · rw [if_neg e1]
        have h2 : decide (mget st.temp mr i < cutoff ∧ 0 ≤ mget st.temp mr i)
            = false := by
          by_contra hcon
          exact e1 (List.mem_filter.mpr ⟨hi,
            by simpa using Bool.of_not_eq_false hcon⟩)
        rw [h2, Bool.or_false]
    rw [List.filter_congr hpoint,
      filter_or_length _ _ _ (fun i hi hc =>
        (of_decide_eq_true hc.1) (hun i (List.mem_range.mp hi)
          (of_decide_eq_true hc.2)))]
    push_cast
    ring_nf
  · -- strict decrease of the orphan count
    rw [horph', g2]
    omega


/-- Under the loop invariant the orphan counter is nonnegative: it
counts the nodes not yet reassigned. -/
theorem spinv_orph_nonneg {N : Nat} {norm : List (List ℚ)} {st : SpState}
    (hS : SpInv N norm st) : 0 ≤ st.orphans := by
  rw [hS.orph]
  have h1 : ((List.range N).filter
      (fun i => decide (st.nodeCluster.getD i 0 ≠ i))).length ≤ N := by
    have h2 := List.length_filter_le
      (fun i => decide (st.nodeCluster.getD i 0 ≠ i)) (List.range N)
    simpa using h2
  omega

/-- Running the outer SPICKER loop with fuel at least the current orphan
count drains the orphans to zero, preserves the invariant, and adds at
most one cluster per unit of fuel. -/
theorem spickerRun_total {N : Nat} {norm : List (List ℚ)} {cutoff : ℚ}
    (hN : 1 ≤ N) (hcut : 0 < cutoff)
    (hdiag : ∀ i, i < N → mget norm i i = 0)
    (hnn : ∀ i j, 0 ≤ mget norm i j) :
    ∀ (fuel : Nat) (st : SpState), SpInv N norm st →
      st.orphans ≤ (fuel : Int) →
      SpInv N norm (spickerRun cutoff N norm fuel st) ∧
      (spickerRun cutoff N norm fuel st).orphans = 0 ∧
      (spickerRun cutoff N norm fuel st).clusters.length ≤
        st.clusters.length + fuel := by
  intro fuel
  induction fuel with
  | zero =>
    intro st hS hle
    have h0 := spinv_orph_nonneg hS
    have hz : st.orphans = 0 := by omega
    have hrun0 : spickerRun cutoff N norm 0 st = st := rfl
    rw [hrun0]
    exact ⟨hS, hz, by omega⟩
  | succ fuel ih =>
    intro st hS hle
    by_cases hpos : 0 < st.orphans
    · have hstep := spickerIter_spinv hS hN hcut hdiag hnn hpos
      have hrun : spickerRun cutoff N norm (fuel + 1) st =
          spickerRun cutoff N norm fuel (spickerIter cutoff N norm st) := by
        show (if 0 < st.orphans then
            spickerRun cutoff N norm fuel (spickerIter cutoff N norm st)
          else st) = _
        rw [if_pos hpos]
      have hle2 : (spickerIter cutoff N norm st).orphans ≤ (fuel : Int) := by
        have h2 := hstep.2.1
        push_cast at hle
        omega
      obtain ⟨q1, q2, q3⟩ := ih (spickerIter cutoff N norm st) hstep.1 hle2
      rw [hrun]
      refine ⟨q1, q2, ?_⟩
      have h4 := hstep.2.2
      omega
    · have h0 := spinv_orph_nonneg hS
      have hrun : spickerRun cutoff N norm (fuel + 1) st = st := by
        show (if 0 < st.orphans then
            spickerRun cutoff N norm fuel (spickerIter cutoff N norm st)
          else st) = st
        rw [if_neg hpos]
      rw [hrun]
      exact ⟨hS, by omega, by omega⟩

/-- C4 counterexample: with cutoff 0 (the claim quantifies over *every*
cutoff) no matrix entry can satisfy `value < cutoff && value >= 0`, so an
iteration of the outer loop assigns nothing: `orphans` and the node
back references are unchanged, the guard `orphans > 0` stays true after
the fuel allotted by the model is spent, and the lone node 0 belongs to
no newly created cluster — the C++ `while (orphans > 0)` loop never
terminates. -/
theorem spicker_zero_cutoff_counterexample :
    (spickerIter 0 1 [[0]] (spickerInit 1 [[0]])).orphans
        = (spickerInit 1 [[0]]).orphans ∧
    (spickerIter 0 1 [[0]] (spickerInit 1 [[0]])).nodeCluster
        = (spickerInit 1 [[0]]).nodeCluster ∧
    (doSpickerCutoff 0 1 [[0]]).orphans = 1 ∧
    ((doSpickerCutoff 0 1 [[0]]).clusters.drop 1).all
      (fun c => !(c.members.contains 0)) = true := by
  refine ⟨by decide, by decide, by decide, by decide⟩

/-- C4 (amended): for every element count N ≥ 1, every N×N nonnegative
matrix with zero diagonal, and every *positive* cutoff, `doSpickerCutoff`
terminates with no orphans and at most 2N clusters, and the newly created
clusters (positions N onward) partition the element set: every element
lies in exactly one of them and no member list has duplicates. -/
theorem spicker_partition_amended (N : Nat) (norm : List (List ℚ)) (cutoff : ℚ)
    (hN : 1 ≤ N) (hcut : 0 < cutoff) (hlen : norm.length = N)
    (hrow : ∀ k, k < N → (norm.getD k []).length = N)
    (hdiag : ∀ i, i < N → mget norm i i = 0)
    (hnn : ∀ i j, 0 ≤ mget norm i j) :
    (doSpickerCutoff cutoff N norm).orphans = 0 ∧
    (doSpickerCutoff cutoff N norm).clusters.length ≤ N + N ∧
    (∀ i, i < N →
      ∃! k, N ≤ k ∧ k < (doSpickerCutoff cutoff N norm).clusters.length ∧
        i ∈ (clAt (spView (doSpickerCutoff cutoff N norm)) k).members) ∧
    (∀ k, k < (doSpickerCutoff cutoff N norm).clusters.length →
      (clAt (spView (doSpickerCutoff cutoff N norm)) k).members.Nodup) := by
  have hinit := spickerInit_spinv N norm hlen hrow
  have hle : (spickerInit N norm).orphans ≤ (N : Int) := le_refl _
  obtain ⟨hfin, horph0, hlenle⟩ :=
    spickerRun_total hN hcut hdiag hnn N (spickerInit N norm) hinit hle
  have hinitlen : (spickerInit N norm).clusters.length = N := by
    show (tab _ N).length = N
    simp [tab]
  have hdsc : doSpickerCutoff cutoff N norm
      = spickerRun cutoff N norm N (spickerInit N norm) := rfl
  rw [hdsc]
  set F := spickerRun cutoff N norm N (spickerInit N norm) with hF
  have hall : ∀ i, i < N → F.nodeCluster.getD i 0 ≠ i := by
    intro i hi
    have horm := hfin.orph
    rw [horph0] at horm
    have hub : ((List.range N).filter
        (fun i => decide (F.nodeCluster.getD i 0 ≠ i))).length ≤ N := by
      have h2 := List.length_filter_le
        (fun i => decide (F.nodeCluster.getD i 0 ≠ i)) (List.range N)
      simpa using h2
    have hlf : ((List.range N).filter
        (fun i => decide (F.nodeCluster.getD i 0 ≠ i))).length = N := by omega
    have hfs : (List.range N).filter
        (fun i => decide (F.nodeCluster.getD i 0 ≠ i)) = List.range N :=
      (List.filter_sublist _).eq_of_length
        (by rw [hlf, List.length_range])
    have h3 := List.filter_eq_self.mp hfs i (List.mem_range.mpr hi)
    exact of_decide_eq_true h3
  refine ⟨horph0, by omega, ?_, ?_⟩
  · intro i hi
    have hni := hall i hi
    have hic := hfin.assignedCl i hi hni
    have hptrN : N ≤ F.nodeCluster.getD i 0 := hic.2
    have hptrLt : F.nodeCluster.getD i 0 < F.clusters.length :=
      hfin.base.ptrLt i hi
    refine ⟨F.nodeCluster.getD i 0, ⟨hptrN, hptrLt, ?_⟩, ?_⟩
    · exact hfin.base.ptrMem i hi
    · intro k hk
      have hact : (clAt (spView F) k).active = true :=
        hfin.newActive k hk.1 hk.2.1
      have h4 := hfin.base.memPtr k
        (show k < (spView F).clusters.length from hk.2.1) hact i hk.2.2
      exact h4.symm
  · intro k hk
    exact hfin.base.nodupMem k
      (show k < (spView F).clusters.length from hk)

/-- Closed instance of the amended SPICKER theorem at N = 1, the 1×1
zero matrix, and cutoff 1. -/
theorem spicker_partition_amended_witness :
    (doSpickerCutoff 1 1 [[0]]).orphans = 0 ∧
    (doSpickerCutoff 1 1 [[0]]).clusters.length ≤ 1 + 1 := by
  have h := spicker_partition_amended 1 [[0]] 1 (by decide) (by decide) rfl
    (by
      intro k hk
      have hk0 : k = 0 := Nat.lt_one_iff.mp hk
      rw [hk0]
      decide)
    (by
      intro i hi
      have hi0 : i = 0 := Nat.lt_one_iff.mp hi
      rw [hi0]
      decide)
    (by
      intro i j
      match i, j with
      | 0, 0 => exact le_refl 0
      | 0, j + 1 => exact le_refl 0
      | i + 1, j => exact le_refl 0)
  exact ⟨h.1, h.2.1⟩

/-- C5: the per-element membership invariant.  Initialization
establishes `Inv`; under `Inv` every element's back reference points at
a cluster whose id equals it, the element is among its members, and it
is the unique in-range active cluster containing the element; a merge of
two distinct parent clusters preserves `Inv`, and a SPICKER iteration
preserves the SPICKER invariant (whose first component is `Inv` on the
view). -/
theorem membership_invariant (N : Nat) :
    Inv N (initState N) ∧
    (∀ st : ClState, Inv N st → ∀ n, n < N →
      (clAt st (clusterOf st n)).id = clusterOf st n ∧
      n ∈ (clAt st (clusterOf st n)).members ∧
      (∃! k, k < st.clusters.length ∧ (clAt st k).active = true ∧
        n ∈ (clAt st k).members)) ∧
    (∀ (st : ClState) (a b : Nat) (d : ℚ), Inv N st → a < N → b < N →
      clusterOf st a ≠ clusterOf st b →
      Inv N (mergeClusters st (clusterOf st a) (clusterOf st b)
        st.clusters.length d)) ∧
    (∀ (norm : List (List ℚ)) (cutoff : ℚ) (st : SpState),
      SpInv N norm st → 1 ≤ N → 0 < cutoff →
      (∀ i, i < N → mget norm i i = 0) → (∀ i j, 0 ≤ mget norm i j) →
      0 < st.orphans → SpInv N norm (spickerIter cutoff N norm st)) := by
  refine ⟨initState_inv N, ?_, ?_, ?_⟩
  · intro st hI n hn
    have h1 : clusterOf st n < st.clusters.length := hI.ptrLt n hn
    refine ⟨hI.ids _ h1, hI.ptrMem n hn,
      ⟨clusterOf st n, ⟨h1, hI.ptrActive n hn, hI.ptrMem n hn⟩, ?_⟩⟩
    intro k hk
    exact (hI.memPtr k hk.1 hk.2.1 n hk.2.2).symm
  · intro st a b d hI ha hb hne
    exact mergeClusters_inv hI ha hb hne d
  · intro norm cutoff st hS hN hcut hdiag hnn horph
    exact (spickerIter_spinv hS hN hcut hdiag hnn horph).1

/-- Closed instance of the membership invariant at N = 1: the invariant
holds initially and element 0 sits in the unique active cluster 0. -/
theorem membership_invariant_witness :
    Inv 1 (initState 1) ∧
    (clAt (initState 1) (clusterOf (initState 1) 0)).id
      = clusterOf (initState 1) 0 := by
  have h := membership_invariant 1
  exact ⟨h.1, (h.2.1 (initState 1) h.1 0 (by decide)).1⟩

end Clustering
